import Mathlib

/-!
Shallow embedding of the build-chore core of the `devtools_91x` repository:
the warning census of `warning_tracker.py` and the build-output stream loop
of `chore_manager.py` (`ChoreManager._make`, `ChoreManager.check_warnings`),
together with proofs about the embedded operations.

Strings are modelled as `List Char`; Python's `pat in line` substring test
is modelled by decidable list-infix containment.
-/

namespace Devtools

/-! ## Definitions: the embedded data model and operations -/


/-- Characters of a string literal. -/
def chars (s : String) : List Char := s.toList

/-- Substring test: the embedding of Python's `pat in line` on strings. -/
def hasSub (pat line : List Char) : Bool := decide (pat <:+: line)

/-! ### Warning normalization (`WarningTracker.add`, warning_tracker.py lines 28-29)

`add` runs `sub(r':[0-9]+:', ':#:', warning)` twice.  `spanDigits` is the
regex engine's greedy scan of `[0-9]+`; `subOnceGo` is one left-to-right
substitution pass (fueled so that the recursion is structural and the
function evaluates inside `decide`). -/

/-- Maximal leading run of decimal digits, and the remainder. -/
def spanDigits : List Char → List Char × List Char
  | [] => ([], [])
  | c :: cs =>
    if c.isDigit then
      (c :: (spanDigits cs).1, (spanDigits cs).2)
    else
      ([], c :: cs)

/-- Given the characters `cs` that follow a `':'`, does a match of
`:[0-9]+:` start at that `':'`? -/
def subMatch (cs : List Char) : Bool :=
  !(spanDigits cs).1.isEmpty && ((spanDigits cs).2.head? == some ':')

/-- One pass of `re.sub(r':[0-9]+:', ':#:', s)`: scan left to right, replace
the leftmost match, resume after the replaced text.  The first argument is
fuel making the recursion structural. -/
def subOnceGo : Nat → List Char → List Char
  | 0, l => l
  | _ + 1, [] => []
  | f + 1, c :: cs =>
    if c = ':' then
      if subMatch cs then
        ':' :: '#' :: ':' :: subOnceGo f (spanDigits cs).2.tail
      else
        ':' :: subOnceGo f cs
    else
      c :: subOnceGo f cs

/-- One pass of `re.sub(r':[0-9]+:', ':#:', s)`. -/
def subOnce (l : List Char) : List Char := subOnceGo l.length l

/-- The normalization performed by `WarningTracker.add`: the substitution
applied twice (source lines 28-29). -/
def normalize (l : List Char) : List Char := subOnce (subOnce l)

/-- Full normalization: like `subOnce` but after a replacement the scan
resumes at the replacement's closing `':'`, so chains such as `:1:2:3:`
are rewritten completely in one pass.  Used as the specification that the
double substitution pass is proved equal to. -/
def normFullGo : Nat → List Char → List Char
  | 0, l => l
  | _ + 1, [] => []
  | f + 1, c :: cs =>
    if c = ':' then
      if subMatch cs then
        ':' :: '#' :: normFullGo f (spanDigits cs).2
      else
        ':' :: normFullGo f cs
    else
      c :: normFullGo f cs

/-- Full normalization of a warning string. -/
def normFull (l : List Char) : List Char := normFullGo l.length l

/-- Does some position of `l` start a match of `:[0-9]+:`? -/
def hasLineField : List Char → Bool
  | [] => false
  | c :: cs => (decide (c = ':') && subMatch cs) || hasLineField cs

/-! ### The warning census (`warning_tracker.py`, class `WarningTracker`)

A Python dict is modelled as an insertion-ordered association list with
unique keys; `dbLookup` is `d[k]` / `k in d`, `dbSet` is `d[k] = v`,
`dbBump` is `d[k] += 1`. -/

/-- An insertion-ordered key/count mapping (a Python dict). -/
abbrev Db := List (List Char × Nat)

/-- `d[k]` as an option (`none` when `k not in d`). -/
def dbLookup : Db → List Char → Option Nat
  | [], _ => none
  | (k, v) :: rest, w => if k = w then some v else dbLookup rest w

/-- `d[k] = v`: overwrite in place, else append preserving insertion order. -/
def dbSet : Db → List Char → Nat → Db
  | [], w, v => [(w, v)]
  | (k, u) :: rest, w, v =>
    if k = w then (k, v) :: rest else (k, u) :: dbSet rest w v

/-- `d[k] += 1` on a present key. -/
def dbBump : Db → List Char → Db
  | [], _ => []
  | (k, u) :: rest, w =>
    if k = w then (k, u + 1) :: rest else (k, u) :: dbBump rest w

/-- Sum of the counts of a mapping (`sum(d.values())`). -/
def dbValuesSum (d : Db) : Nat := (d.map Prod.snd).sum

/-- The generation a census insertion targets. -/
inductive Gen where
  | old : Gen
  | new : Gen
deriving DecidableEq, Repr

/-- `WarningTracker.__init__`: two empty generations; `_active_db = None`
until `set_db` selects one.  `active_db` holds which generation the
Python alias `_active_db` points at. -/
structure WarningTracker where
  old_db : Db
  new_db : Db
  active_db : Option Gen
deriving DecidableEq, Repr

/-- A freshly constructed `WarningTracker()`. -/
def WarningTracker.init : WarningTracker :=
  { old_db := [], new_db := [], active_db := none }

/-- `WarningTracker.set_db`: select the generation, or raise
`NameError('Invalid name')` for any other argument. -/
def WarningTracker.set_db (t : WarningTracker) (dest : List Char) :
    Except (List Char) WarningTracker :=
  if dest = chars "old" then .ok { t with active_db := some .old }
  else if dest = chars "new" then .ok { t with active_db := some .new }
  else .error (chars "Invalid name")

/-- The dict-level body of `WarningTracker.add` after normalization:
`db[w] += 1` if present, else `db[w] = 1`. -/
def dbAdd (db : Db) (w : List Char) : Db :=
  if (dbLookup db w).isSome then dbBump db w else db ++ [(w, 1)]

/-- `WarningTracker.add`: normalize (two substitution passes) and count.
On a tracker whose generation was never selected, `warning in db`
dereferences `None` and raises `TypeError`, modelled as `.error ()`. -/
def WarningTracker.add (t : WarningTracker) (warning : List Char) :
    Except Unit WarningTracker :=
  match t.active_db with
  | none => .error ()
  | some .old => .ok { t with old_db := dbAdd t.old_db (normalize warning) }
  | some .new => .ok { t with new_db := dbAdd t.new_db (normalize warning) }

/-- The body of `get_diff`'s first loop: compute `count_diff` for one
key of `_old_db` and update the removed/added accumulators. -/
def diffStep (new_db : Db) (acc : Db × Db) (e : List Char × Nat) : Db × Db :=
  let count_diff : Int :=
    match dbLookup new_db e.1 with
    | some n => (n : Int) - (e.2 : Int)
    | none => -(e.2 : Int)
  if count_diff < 0 then (dbSet acc.1 e.1 (-count_diff).toNat, acc.2)
  else if 0 < count_diff then (acc.1, dbSet acc.2 e.1 count_diff.toNat)
  else acc

/-- The body of `get_diff`'s second loop: a key of `_new_db` absent from
`_old_db` contributes its full count to the added mapping. -/
def addedStep (old_db : Db) (a : Db) (e : List Char × Nat) : Db :=
  if (dbLookup old_db e.1).isSome then a else dbSet a e.1 e.2

/-- `WarningTracker.get_diff`: the removed and added mappings it prints.
First loop: every key of `_old_db` with `count_diff` negative or positive;
second loop: keys only in `_new_db`, with their full counts. -/
def WarningTracker.get_diff (t : WarningTracker) : Db × Db :=
  let first := t.old_db.foldl (diffStep t.new_db) ([], [])
  let added := t.new_db.foldl (addedStep t.old_db) first.2
  (first.1, added)

/-- The totals `get_diff` prints: warnings removed and warnings added. -/
def WarningTracker.diff_totals (t : WarningTracker) : Nat × Nat :=
  (dbValuesSum t.get_diff.1, dbValuesSum t.get_diff.2)

/-! #### Closed forms for the two loops of `get_diff` -/

/-- `new.count(key)` with an absent key counted as 0. -/
def newCount (new_db : Db) (k : List Char) : Nat := (dbLookup new_db k).getD 0

/-- Keep the entries satisfying `p`, with their value mapped by `g`. -/
def dbFilterWith (p : List Char × Nat → Bool) (g : List Char × Nat → Nat)
    (d : Db) : Db :=
  d.filterMap (fun e => if p e then some (e.1, g e) else none)

/-- Keys of `old` whose count drops, with the lost count. -/
def removedOf (old_db new_db : Db) : Db :=
  dbFilterWith (fun e => decide (newCount new_db e.1 < e.2))
    (fun e => e.2 - newCount new_db e.1) old_db

/-- Keys of `old` whose count rises, with the gained count. -/
def addedOldOf (old_db new_db : Db) : Db :=
  dbFilterWith (fun e => decide (e.2 < newCount new_db e.1))
    (fun e => newCount new_db e.1 - e.2) old_db

/-- Keys only in `new`, with their full counts. -/
def addedNewOf (old_db new_db : Db) : Db :=
  new_db.filter (fun e => (dbLookup old_db e.1).isNone)

/-! ### The build-output loop (`ChoreManager._make`, chore_manager.py 549-631)

The stdout branch of the loop drives the result dict (`status`, `rerun`,
`size`) and the progress bar; the stderr branch drives the categorized
logs, the context buffer and the warning tracker.  The selector loop
itself is modelled separately as `muxRun`. -/

/-- `'Size of flash image' in line` (stdout success marker). -/
def SUCCESS_MARKER : List Char := chars "Size of flash image"

/-- `'Please run make again!' in line` (stdout rerun marker). -/
def RERUN_MARKER : List Char := chars "Please run make again!"

/-- The build-trace token counted for the progress bar. -/
def PROGRESS_TOKEN : List Char := chars "<builtin>: update target"

/-- `findall(r'\d+', line)[0]`: the first maximal run of decimal digits,
if any. -/
def firstDigitRun : List Char → Option (List Char)
  | [] => none
  | c :: cs =>
    if c.isDigit then some (c :: (spanDigits cs).1) else firstDigitRun cs

/-- `int(...)` on a run of digits. -/
def digitsToNat (ds : List Char) : Nat :=
  ds.foldl (fun a c => a * 10 + (c.toNat - '0'.toNat)) 0

/-- The status slot of the `results` dict (`'FAIL'` / `'PASS'`). -/
inductive BuildStatus where
  | fail : BuildStatus
  | pass : BuildStatus
deriving DecidableEq, Repr

/-- The stdout-driven slice of `results` plus the progress-bar tick count. -/
structure MakeOut where
  status : BuildStatus
  rerun : Bool
  size : Nat
  ticks : Nat
deriving DecidableEq, Repr

/-- `results` before any line arrives: `'status': 'FAIL', 'rerun': False,
'size': 0`. -/
def initOut : MakeOut := { status := .fail, rerun := false, size := 0, ticks := 0 }

/-- One stdout line of the loop (lines 590-596).  A success-marker line
without digits raises `IndexError` on `findall(...)[0]`, modelled as
`.error ()`. -/
def stepStdout (st : MakeOut) (line : List Char) : Except Unit MakeOut :=
  if hasSub SUCCESS_MARKER line then
    match firstDigitRun line with
    | some ds => .ok { st with status := .pass, size := digitsToNat ds }
    | none => .error ()
  else if hasSub RERUN_MARKER line then .ok { st with rerun := true }
  else if hasSub PROGRESS_TOKEN line then .ok { st with ticks := st.ticks + 1 }
  else .ok st

/-- The category the stderr if/elif chain (lines 600-618) assigns a line. -/
inductive StderrClass where
  | ignoredNoise : StderrClass
  | linkerDiag : StderrClass
  | errorDiag : StderrClass
  | warningDiag : StderrClass
  | contextLine : StderrClass
deriving DecidableEq, Repr

/-- The stderr classification: `/tmp/cc` noise, then `/bin/ld` without
`warning:`, then `: error:` or `: undefined reference`, then
`: warning:`, else context. -/
def classifyStderr (line : List Char) : StderrClass :=
  if hasSub (chars "/tmp/cc") line then .ignoredNoise
  else if hasSub (chars "/bin/ld") line && !hasSub (chars "warning:") line then
    .linkerDiag
  else if hasSub (chars ": error:") line
      || hasSub (chars ": undefined reference") line then .errorDiag
  else if hasSub (chars ": warning:") line then .warningDiag
  else .contextLine

/-- The stderr-driven state of the loop: the raw `compiler_log`, the
three categorized logs, the `context` buffer and the warning tracker. -/
structure ErrLoop where
  compiler_log : List Char
  linker_log : List Char
  error_log : List Char
  warning_log : List Char
  context : List Char
  tracker : Option WarningTracker
deriving DecidableEq, Repr

/-- The stderr state before any line arrives. -/
def initErr (tr : Option WarningTracker) : ErrLoop :=
  { compiler_log := [], linker_log := [], error_log := [],
    warning_log := [], context := [], tracker := tr }

/-- The warning branch's effect on the tracker: `if self._warning_tracker:
self._warning_tracker.add(context + line)`.  No tracker installed means
no call; an installed tracker may raise (no generation selected). -/
def stepWarningTracker (tr : Option WarningTracker) (w : List Char) :
    Except Unit (Option WarningTracker) :=
  match tr with
  | none => .ok none
  | some t =>
    match t.add w with
    | .ok t2 => .ok (some t2)
    | .error e => .error e

/-- One stderr line of the loop (lines 597-618).  Every branch appends the
line to `compiler_log` first.  The warning branch passes `context + line`
to the tracker when one is installed; its append to the `'warning'` log is
commented out in the source, so `warning_log` is never written. -/
def stepStderr (st : ErrLoop) (line : List Char) : Except Unit ErrLoop :=
  match classifyStderr line with
  | .ignoredNoise => .ok { st with compiler_log := st.compiler_log ++ line }
  | .linkerDiag =>
    .ok { st with compiler_log := st.compiler_log ++ line,
                  linker_log := st.linker_log ++ st.context ++ line,
                  context := [] }
  | .errorDiag =>
    .ok { st with compiler_log := st.compiler_log ++ line,
                  error_log := st.error_log ++ st.context ++ line,
                  context := [] }
  | .warningDiag =>
    match stepWarningTracker st.tracker (st.context ++ line) with
    | .ok tr2 => .ok { st with compiler_log := st.compiler_log ++ line,
                               tracker := tr2, context := [] }
    | .error e => .error e
  | .contextLine =>
    .ok { st with compiler_log := st.compiler_log ++ line,
                  context := st.context ++ line }

/-! ### The selector loop (`while ok: for key, _ in sel.select(): ...`)

A schedule lists which ready stream each `readline` call draws from; the
loop exits the first time a `readline` returns end-of-stream.  `fedOut`
and `fedErr` record the lines actually handed to the classifier. -/

/-- Which stream a ready `readline` call draws from. -/
inductive Src where
  | out : Src
  | err : Src
deriving DecidableEq, Repr

/-- The state of the selector loop. -/
structure MuxState where
  outPending : List (List Char)
  errPending : List (List Char)
  fedOut : List (List Char)
  fedErr : List (List Char)
  outSt : MakeOut
  errSt : ErrLoop
deriving DecidableEq, Repr

/-- Initial loop state for given stream contents. -/
def initMux (out err : List (List Char)) (tr : Option WarningTracker) : MuxState :=
  { outPending := out, errPending := err, fedOut := [], fedErr := [],
    outSt := initOut, errSt := initErr tr }

/-- Run the selector loop along a schedule of readline calls.  Reading an
exhausted stream returns `''`, which sets `ok = False` and breaks out of
both loops: the returned flag is true when the loop terminated this way.
An exhausted schedule with the loop still running returns the flag false. -/
def muxRun : List Src → MuxState → Except Unit (MuxState × Bool)
  | [], st => .ok (st, false)
  | .out :: sched, st =>
    match st.outPending with
    | [] => .ok (st, true)
    | l :: ls =>
      match stepStdout st.outSt l with
      | .error e => .error e
      | .ok o =>
        muxRun sched { st with outPending := ls, fedOut := st.fedOut ++ [l],
                               outSt := o }
  | .err :: sched, st =>
    match st.errPending with
    | [] => .ok (st, true)
    | l :: ls =>
      match stepStderr st.errSt l with
      | .error e => .error e
      | .ok e2 =>
        muxRun sched { st with errPending := ls, fedErr := st.fedErr ++ [l],
                               errSt := e2 }

/-! ### The `_make` result (`results` dict) and `check_warnings` -/

/-- The `results` dict returned by `_make`, with `logs` filled in. -/
structure MakeResult where
  status : BuildStatus
  rerun : Bool
  size : Nat
  linker_log : List Char
  error_log : List Char
  warning_log : List Char
  raw_log : List Char
  tracker : Option WarningTracker
deriving DecidableEq, Repr

/-- `_make` over complete per-stream line lists: fold the stdout branch
over the stdout lines and the stderr branch over the stderr lines, then
assemble `results`.  `returncode` only decides whether the progress bar
is finalized (second component); it does not feed the results dict. -/
def make (out err : List (List Char)) (tr : Option WarningTracker)
    (returncode : Int) : Except Unit (MakeResult × Bool) := do
  let o ← List.foldlM stepStdout initOut out
  let e ← List.foldlM stepStderr (initErr tr) err
  .ok ({ status := o.status, rerun := o.rerun, size := o.size,
         linker_log := e.linker_log, error_log := e.error_log,
         warning_log := e.warning_log, raw_log := e.compiler_log,
         tracker := e.tracker }, returncode = 0)

/-- The externally visible actions of `check_warnings`
(chore_manager.py 523-539), in program order. -/
inductive SessionStep where
  | select_new_generation : SessionStep
  | build_candidate : SessionStep
  | restore_generated_files : SessionStep
  | report_failure : SessionStep
  | checkout_base : SessionStep
  | select_old_generation : SessionStep
  | build_base : SessionStep
  | restore_generated_files_base : SessionStep
  | checkout_back : SessionStep
  | print_diff : SessionStep
deriving DecidableEq, Repr

/-- The action trace of `check_warnings`, as a function of the candidate
build's outcome: select `'new'`, build, restore the auto-generated files,
then either report the failure and return, or check out the merge base,
select `'old'`, build again, restore, check out back, and print the diff. -/
def check_warnings (candidate : MakeResult) : List SessionStep :=
  [.select_new_generation, .build_candidate, .restore_generated_files] ++
    (if ¬(candidate.status = .pass ∨ candidate.rerun = true) then
      [.report_failure]
    else
      [.checkout_base, .select_old_generation, .build_base,
       .restore_generated_files_base, .checkout_back, .print_diff])

/-- The census of the spec's scenario C after both generations were
recorded: old holds warning x once; new holds x once and y once. -/
def scenC : WarningTracker :=
  { old_db := [(chars "a.c:#: warning: unused variable x", 1)],
    new_db := [(chars "a.c:#: warning: unused variable x", 1),
               (chars "a.c:#: warning: unused variable y", 1)],
    active_db := some .old }

/-- The stderr state after the first line of the spec's scenario D: the
context line has been buffered. -/
def scenD_st : ErrLoop :=
  { compiler_log := chars "note: in expansion", linker_log := [],
    error_log := [], warning_log := [], context := chars "note: in expansion",
    tracker := none }

/-- A failed candidate outcome for the C8 witness. -/
def failedOutcome : MakeResult :=
  { status := .fail, rerun := false, size := 0, linker_log := [],
    error_log := chars "boom", warning_log := [], raw_log := chars "boom",
    tracker := none }

/-! ## Theorems -/

theorem hasSub_iff (pat line : List Char) : hasSub pat line = true ↔ pat <:+: line := by
  simp [hasSub]

/-! #### Basic facts about `spanDigits` -/

theorem spanDigits_append_eq (l : List Char) :
    (spanDigits l).1 ++ (spanDigits l).2 = l := by
  induction l with
  | nil => rfl
  | cons c cs ih =>
    cases h : c.isDigit <;> simp [spanDigits, h, ih]

theorem spanDigits_length (l : List Char) :
    (spanDigits l).1.length + (spanDigits l).2.length = l.length := by
  simpa using congrArg List.length (spanDigits_append_eq l)

theorem spanDigits_fst_all (l : List Char) :
    ∀ c ∈ (spanDigits l).1, c.isDigit = true := by
  induction l with
  | nil => intro c hc; simp [spanDigits] at hc
  | cons a cs ih =>
    intro c hc
    cases h : a.isDigit with
    | false => simp [spanDigits, h] at hc
    | true =>
      simp [spanDigits, h] at hc
      rcases hc with rfl | hc
      · exact h
      · exact ih c hc

theorem spanDigits_snd_head (l : List Char) :
    ∀ c, (spanDigits l).2.head? = some c → c.isDigit = false := by
  induction l with
  | nil => intro c hc; simp [spanDigits] at hc
  | cons a cs ih =>
    intro c hc
    cases h : a.isDigit with
    | false =>
      simp [spanDigits, h] at hc
      simpa [hc] using h
    | true =>
      simp [spanDigits, h] at hc
      exact ih c hc

theorem isDigit_ne_colon {c : Char} (h : c.isDigit = true) : c ≠ ':' := by
  intro hc
  subst hc
  exact absurd h (by decide)

theorem spanDigits_digits_append (ds r : List Char)
    (hds : ∀ c ∈ ds, c.isDigit = true)
    (hr : ∀ c, r.head? = some c → c.isDigit = false) :
    spanDigits (ds ++ r) = (ds, r) := by
  induction ds with
  | nil =>
    cases r with
    | nil => rfl
    | cons a rs =>
      have ha : a.isDigit = false := hr a rfl
      simp [spanDigits, ha]
  | cons d ds ih =>
    have hd : d.isDigit = true := hds d (by simp)
    have ih2 := ih (fun c hc => hds c (by simp [hc]))
    simp [spanDigits, hd, ih2]

/-! #### Unfolding equations for `subOnce` and `normFull` -/

theorem spanDigits_snd_tail_length (cs : List Char) :
    (spanDigits cs).2.tail.length ≤ cs.length := by
  have h1 := spanDigits_length cs
  have h2 : (spanDigits cs).2.tail.length = (spanDigits cs).2.length - 1 := by
    simp [List.length_tail]
  omega

theorem spanDigits_snd_length (cs : List Char) :
    (spanDigits cs).2.length ≤ cs.length := by
  have h1 := spanDigits_length cs
  omega

theorem subOnceGo_congr :
    ∀ (f g : Nat) (l : List Char), l.length ≤ f → l.length ≤ g →
      subOnceGo f l = subOnceGo g l := by
  intro f
  induction f with
  | zero =>
    intro g l hf _
    have : l = [] := List.eq_nil_of_length_eq_zero (Nat.le_zero.mp hf)
    subst this
    cases g <;> rfl
  | succ f ih =>
    intro g l hf hg
    cases l with
    | nil => cases g <;> rfl
    | cons c cs =>
      cases g with
      | zero => simp at hg
      | succ g =>
        have hcf : cs.length ≤ f := by simpa using hf
        have hcg : cs.length ≤ g := by simpa using hg
        simp only [subOnceGo]
        by_cases hc : c = ':'
        · rw [if_pos hc, if_pos hc]
          cases hm : subMatch cs with
          | true =>
            rw [if_pos rfl, if_pos rfl]
            have h1 : (spanDigits cs).2.tail.length ≤ f :=
              le_trans (spanDigits_snd_tail_length cs) hcf
            have h2 : (spanDigits cs).2.tail.length ≤ g :=
              le_trans (spanDigits_snd_tail_length cs) hcg
            rw [ih g _ h1 h2]
          | false =>
            rw [if_neg (by simp), if_neg (by simp)]
            rw [ih g cs hcf hcg]
        · rw [if_neg hc, if_neg hc, ih g cs hcf hcg]

theorem normFullGo_congr :
    ∀ (f g : Nat) (l : List Char), l.length ≤ f → l.length ≤ g →
      normFullGo f l = normFullGo g l := by
  intro f
  induction f with
  | zero =>
    intro g l hf _
    have : l = [] := List.eq_nil_of_length_eq_zero (Nat.le_zero.mp hf)
    subst this
    cases g <;> rfl
  | succ f ih =>
    intro g l hf hg
    cases l with
    | nil => cases g <;> rfl
    | cons c cs =>
      cases g with
      | zero => simp at hg
      | succ g =>
        have hcf : cs.length ≤ f := by simpa using hf
        have hcg : cs.length ≤ g := by simpa using hg
        simp only [normFullGo]
        by_cases hc : c = ':'
        · rw [if_pos hc, if_pos hc]
          cases hm : subMatch cs with
          | true =>
            rw [if_pos rfl, if_pos rfl]
            have h1 : (spanDigits cs).2.length ≤ f :=
              le_trans (spanDigits_snd_length cs) hcf
            have h2 : (spanDigits cs).2.length ≤ g :=
              le_trans (spanDigits_snd_length cs) hcg
            rw [ih g _ h1 h2]
          | false =>
            rw [if_neg (by simp), if_neg (by simp)]
            rw [ih g cs hcf hcg]
        · rw [if_neg hc, if_neg hc, ih g cs hcf hcg]

theorem subOnce_nil : subOnce [] = [] := rfl

theorem subOnce_cons_ne {c : Char} (hc : c ≠ ':') (l : List Char) :
    subOnce (c :: l) = c :: subOnce l := by
  simp only [subOnce, List.length_cons, subOnceGo, if_neg hc]

theorem subOnce_colon_match {cs : List Char} (hm : subMatch cs = true) :
    subOnce (':' :: cs) = ':' :: '#' :: ':' :: subOnce (spanDigits cs).2.tail := by
  simp only [subOnce, List.length_cons, subOnceGo, if_pos rfl, hm, if_true]
  rw [subOnceGo_congr cs.length (spanDigits cs).2.tail.length _
    (spanDigits_snd_tail_length cs) le_rfl]

theorem subOnce_colon_nomatch {cs : List Char} (hm : subMatch cs = false) :
    subOnce (':' :: cs) = ':' :: subOnce cs := by
  simp only [subOnce, List.length_cons, subOnceGo, if_pos rfl, hm]
  simp

theorem normFull_nil : normFull [] = [] := rfl

theorem normFull_cons_ne {c : Char} (hc : c ≠ ':') (l : List Char) :
    normFull (c :: l) = c :: normFull l := by
  simp only [normFull, List.length_cons, normFullGo, if_neg hc]

theorem normFull_colon_match {cs : List Char} (hm : subMatch cs = true) :
    normFull (':' :: cs) = ':' :: '#' :: normFull (spanDigits cs).2 := by
  simp only [normFull, List.length_cons, normFullGo, if_pos rfl, hm, if_true]
  rw [normFullGo_congr cs.length (spanDigits cs).2.length _
    (spanDigits_snd_length cs) le_rfl]

theorem normFull_colon_nomatch {cs : List Char} (hm : subMatch cs = false) :
    normFull (':' :: cs) = ':' :: normFull cs := by
  simp only [normFull, List.length_cons, normFullGo, if_pos rfl, hm]
  simp

/-! #### Structure preserved by one substitution pass -/

theorem head?_eq_cons {l : List Char} {a : Char} (h : l.head? = some a) :
    l = a :: l.tail := by
  cases l with
  | nil => simp at h
  | cons b t =>
    simp at h
    simp [h]

theorem hash_not_digit : ('#' : Char).isDigit = false := by decide

theorem subMatch_eq_true_iff (cs : List Char) :
    subMatch cs = true ↔
      (spanDigits cs).1 ≠ [] ∧ (spanDigits cs).2.head? = some ':' := by
  simp [subMatch, List.isEmpty_iff]

theorem subOnce_head (l : List Char) : (subOnce l).head? = l.head? := by
  cases l with
  | nil => rfl
  | cons c cs =>
    by_cases hc : c = ':'
    · subst hc
      cases hm : subMatch cs with
      | true => rw [subOnce_colon_match hm]; rfl
      | false => rw [subOnce_colon_nomatch hm]; rfl
    · rw [subOnce_cons_ne hc]; rfl

theorem normFull_head (l : List Char) : (normFull l).head? = l.head? := by
  cases l with
  | nil => rfl
  | cons c cs =>
    by_cases hc : c = ':'
    · subst hc
      cases hm : subMatch cs with
      | true => rw [normFull_colon_match hm]; rfl
      | false => rw [normFull_colon_nomatch hm]; rfl
    · rw [normFull_cons_ne hc]; rfl

theorem subOnce_digits_append (ds l : List Char)
    (hds : ∀ c ∈ ds, c.isDigit = true) :
    subOnce (ds ++ l) = ds ++ subOnce l := by
  induction ds with
  | nil => simp
  | cons d ds ih =>
    have hd : d.isDigit = true := hds d (by simp)
    have hne : d ≠ ':' := isDigit_ne_colon hd
    rw [List.cons_append, subOnce_cons_ne hne,
      ih (fun c hc => hds c (by simp [hc])), List.cons_append]

theorem normFull_digits_append (ds l : List Char)
    (hds : ∀ c ∈ ds, c.isDigit = true) :
    normFull (ds ++ l) = ds ++ normFull l := by
  induction ds with
  | nil => simp
  | cons d ds ih =>
    have hd : d.isDigit = true := hds d (by simp)
    have hne : d ≠ ':' := isDigit_ne_colon hd
    rw [List.cons_append, normFull_cons_ne hne,
      ih (fun c hc => hds c (by simp [hc])), List.cons_append]

theorem subOnce_decomp (l : List Char) :
    subOnce l = (spanDigits l).1 ++ subOnce (spanDigits l).2 := by
  conv_lhs => rw [← spanDigits_append_eq l]
  exact subOnce_digits_append _ _ (spanDigits_fst_all l)

theorem spanDigits_subOnce (l : List Char) :
    spanDigits (subOnce l) = ((spanDigits l).1, subOnce (spanDigits l).2) := by
  rw [subOnce_decomp l]
  exact spanDigits_digits_append _ _ (spanDigits_fst_all l)
    (fun c hc => spanDigits_snd_head l c (by rwa [subOnce_head] at hc))

theorem normFull_decomp (l : List Char) :
    normFull l = (spanDigits l).1 ++ normFull (spanDigits l).2 := by
  conv_lhs => rw [← spanDigits_append_eq l]
  exact normFull_digits_append _ _ (spanDigits_fst_all l)

theorem spanDigits_normFull (l : List Char) :
    spanDigits (normFull l) = ((spanDigits l).1, normFull (spanDigits l).2) := by
  rw [normFull_decomp l]
  exact spanDigits_digits_append _ _ (spanDigits_fst_all l)
    (fun c hc => spanDigits_snd_head l c (by rwa [normFull_head] at hc))

theorem subMatch_subOnce (l : List Char) : subMatch (subOnce l) = subMatch l := by
  simp [subMatch, spanDigits_subOnce, subOnce_head]

theorem subMatch_normFull (l : List Char) : subMatch (normFull l) = subMatch l := by
  simp [subMatch, spanDigits_normFull, normFull_head]

theorem subMatch_hash_cons (l : List Char) : subMatch ('#' :: l) = false := by
  simp [subMatch, spanDigits, hash_not_digit]

/-! #### The double substitution pass equals full normalization -/

theorem subOnce_subOnce_aux :
    ∀ n : Nat, ∀ l : List Char, l.length < n →
      subOnce (subOnce l) = normFull l ∧
        subOnce (':' :: subOnce l) = normFull (':' :: l) := by
  intro n
  induction n with
  | zero => intro l hl; omega
  | succ n ih =>
    intro l hl
    have hF : subOnce (subOnce l) = normFull l := by
      cases l with
      | nil => rfl
      | cons c cs =>
        have hcs : cs.length < n := by
          simp only [List.length_cons] at hl; omega
        by_cases hc : c = ':'
        · subst hc
          cases hm : subMatch cs with
          | true =>
            obtain ⟨h1, h2⟩ := (subMatch_eq_true_iff cs).mp hm
            have hrest : (spanDigits cs).2.tail.length < n := by
              have := spanDigits_snd_tail_length cs; omega
            rw [subOnce_colon_match hm,
              subOnce_colon_nomatch (subMatch_hash_cons _),
              subOnce_cons_ne (by decide : ('#' : Char) ≠ ':'),
              (ih _ hrest).2, normFull_colon_match hm]
            conv_rhs => rw [head?_eq_cons h2]
          | false =>
            rw [subOnce_colon_nomatch hm, (ih cs hcs).2,
              normFull_colon_nomatch hm]
        · rw [subOnce_cons_ne hc, subOnce_cons_ne hc, (ih cs hcs).1,
            normFull_cons_ne hc]
    refine ⟨hF, ?_⟩
    cases hm : subMatch l with
    | false =>
      have hm2 : subMatch (subOnce l) = false := by
        rw [subMatch_subOnce]; exact hm
      rw [subOnce_colon_nomatch hm2, hF, normFull_colon_nomatch hm]
    | true =>
      obtain ⟨h1, h2⟩ := (subMatch_eq_true_iff l).mp hm
      have hm2 : subMatch (subOnce l) = true := by
        rw [subMatch_subOnce]; exact hm
      have hspan1 : 1 ≤ (spanDigits l).1.length :=
        List.length_pos.mpr h1
      have hspanlen := spanDigits_length l
      obtain ⟨R, hP2⟩ : ∃ R, (spanDigits l).2 = ':' :: R :=
        ⟨(spanDigits l).2.tail, head?_eq_cons h2⟩
      have hRlen : R.length < n := by
        have : (spanDigits l).2.length = R.length + 1 := by rw [hP2]; rfl
        omega
      rw [subOnce_colon_match hm2]
      simp only [spanDigits_subOnce, normFull_colon_match hm, hP2]
      cases hmr : subMatch R with
      | true =>
        obtain ⟨hr1, hr2⟩ := (subMatch_eq_true_iff R).mp hmr
        have hR3len : (spanDigits R).2.tail.length < n := by
          have := spanDigits_snd_tail_length R; omega
        rw [subOnce_colon_match hmr, List.tail_cons,
          subOnce_cons_ne (by decide : ('#' : Char) ≠ ':'),
          (ih _ hR3len).2, normFull_colon_match hmr]
        conv_rhs => rw [head?_eq_cons hr2]
      | false =>
        rw [subOnce_colon_nomatch hmr, List.tail_cons, (ih R hRlen).1,
          normFull_colon_nomatch hmr]

/-- The two-pass substitution of `WarningTracker.add` computes full
normalization. -/
theorem normalize_eq_normFull (l : List Char) : normalize l = normFull l :=
  (subOnce_subOnce_aux (l.length + 1) l (by omega)).1

theorem normFull_idem_aux :
    ∀ n : Nat, ∀ l : List Char, l.length < n →
      normFull (normFull l) = normFull l := by
  intro n
  induction n with
  | zero => intro l hl; omega
  | succ n ih =>
    intro l hl
    cases l with
    | nil => rfl
    | cons c cs =>
      have hcs : cs.length < n := by
        simp only [List.length_cons] at hl; omega
      by_cases hc : c = ':'
      · subst hc
        cases hm : subMatch cs with
        | true =>
          obtain ⟨h1, h2⟩ := (subMatch_eq_true_iff cs).mp hm
          have hspan1 : 1 ≤ (spanDigits cs).1.length :=
            List.length_pos.mpr h1
          have hspanlen := spanDigits_length cs
          have hp2 : (spanDigits cs).2.length < n := by omega
          rw [normFull_colon_match hm,
            normFull_colon_nomatch (subMatch_hash_cons _),
            normFull_cons_ne (by decide : ('#' : Char) ≠ ':'),
            ih (spanDigits cs).2 hp2]
        | false =>
          have hm2 : subMatch (normFull cs) = false := by
            rw [subMatch_normFull]; exact hm
          rw [normFull_colon_nomatch hm, normFull_colon_nomatch hm2,
            ih cs hcs]
      · rw [normFull_cons_ne hc, normFull_cons_ne hc, ih cs hcs]

/-- `normFull` is idempotent. -/
theorem normFull_idem (l : List Char) : normFull (normFull l) = normFull l :=
  normFull_idem_aux (l.length + 1) l (by omega)

/-- The normalization of `WarningTracker.add` is idempotent. -/
theorem normalize_idem (l : List Char) : normalize (normalize l) = normalize l := by
  rw [normalize_eq_normFull l, normalize_eq_normFull (normFull l), normFull_idem]

theorem hasLineField_normFull_aux :
    ∀ n : Nat, ∀ l : List Char, l.length < n →
      hasLineField (normFull l) = false := by
  intro n
  induction n with
  | zero => intro l hl; omega
  | succ n ih =>
    intro l hl
    cases l with
    | nil => rfl
    | cons c cs =>
      have hcs : cs.length < n := by
        simp only [List.length_cons] at hl; omega
      by_cases hc : c = ':'
      · subst hc
        cases hm : subMatch cs with
        | true =>
          obtain ⟨h1, h2⟩ := (subMatch_eq_true_iff cs).mp hm
          have hspan1 : 1 ≤ (spanDigits cs).1.length :=
            List.length_pos.mpr h1
          have hspanlen := spanDigits_length cs
          have hp2 : (spanDigits cs).2.length < n := by omega
          rw [normFull_colon_match hm]
          simp [hasLineField, subMatch_hash_cons, ih _ hp2]
        | false =>
          rw [normFull_colon_nomatch hm]
          simp [hasLineField, subMatch_normFull, hm, ih cs hcs]
      · rw [normFull_cons_ne hc]
        simp [hasLineField, hc, ih cs hcs]

/-- After normalization no `:[0-9]+:` field is left anywhere in the string:
every occurrence was replaced. -/
theorem hasLineField_normalize (l : List Char) :
    hasLineField (normalize l) = false := by
  rw [normalize_eq_normFull]
  exact hasLineField_normFull_aux (l.length + 1) l (by omega)

/-! #### Line numbers do not matter to the normalized key -/

theorem spanDigits_append_of_head (l X : List Char)
    (hX : ∀ c, X.head? = some c → c.isDigit = false) :
    spanDigits (l ++ X) = ((spanDigits l).1, (spanDigits l).2 ++ X) := by
  conv_lhs => rw [← spanDigits_append_eq l, List.append_assoc]
  apply spanDigits_digits_append _ _ (spanDigits_fst_all l)
  intro c hc
  cases hq : (spanDigits l).2 with
  | nil => exact hX c (by simpa [hq] using hc)
  | cons qh qt =>
    have hcq : qh = c := by simpa [hq] using hc
    subst hcq
    exact spanDigits_snd_head l qh (by simp [hq])

theorem head_colon_not_digit (Y : List Char) :
    ∀ c, (':' :: Y).head? = some c → c.isDigit = false := by
  intro c hc
  simp at hc
  subst hc
  decide

theorem normFull_replace_aux :
    ∀ n : Nat, ∀ pre ds post : List Char, pre.length < n → ds ≠ [] →
      (∀ c ∈ ds, c.isDigit = true) →
      normFull (pre ++ (':' :: (ds ++ (':' :: post)))) =
        normFull (pre ++ (':' :: ('#' :: (':' :: post)))) := by
  intro n
  induction n with
  | zero => intro pre ds post hl; omega
  | succ n ih =>
    intro pre ds post hl hne hds
    cases pre with
    | nil =>
      simp only [List.nil_append]
      have hsp : spanDigits (ds ++ (':' :: post)) = (ds, ':' :: post) :=
        spanDigits_digits_append ds (':' :: post) hds (head_colon_not_digit post)
      have hm : subMatch (ds ++ (':' :: post)) = true := by
        simp [subMatch, hsp, List.isEmpty_iff, hne]
      rw [normFull_colon_match hm, hsp,
        normFull_colon_nomatch (subMatch_hash_cons _),
        normFull_cons_ne (by decide : ('#' : Char) ≠ ':')]
    | cons c pre' =>
      have hlen' : pre'.length < n := by
        simp only [List.length_cons] at hl; omega
      by_cases hc : c = ':'
      · subst hc
        have hXL := head_colon_not_digit (ds ++ (':' :: post))
        have hXR := head_colon_not_digit ('#' :: (':' :: post))
        have hspL := spanDigits_append_of_head pre' (':' :: (ds ++ (':' :: post))) hXL
        have hspR := spanDigits_append_of_head pre' (':' :: ('#' :: (':' :: post))) hXR
        have hself := spanDigits_append_eq pre'
        simp only [List.cons_append]
        cases hq : (spanDigits pre').2 with
        | cons qh qt =>
          have hmL : subMatch (pre' ++ (':' :: (ds ++ (':' :: post))))
              = (!(spanDigits pre').1.isEmpty && (qh == ':')) := by
            rw [subMatch, hspL, hq]
            simp
          have hmR : subMatch (pre' ++ (':' :: ('#' :: (':' :: post))))
              = (!(spanDigits pre').1.isEmpty && (qh == ':')) := by
            rw [subMatch, hspR, hq]
            simp
          by_cases hcond : (spanDigits pre').1 ≠ [] ∧ qh = ':'
          · have hmLt : subMatch (pre' ++ (':' :: (ds ++ (':' :: post)))) = true := by
              rw [hmL]; simp [List.isEmpty_iff, hcond.1, hcond.2]
            have hmRt : subMatch (pre' ++ (':' :: ('#' :: (':' :: post)))) = true := by
              rw [hmR]; simp [List.isEmpty_iff, hcond.1, hcond.2]
            have hqt : qt.length + 1 < n := by
              have h1 : 1 ≤ (spanDigits pre').1.length :=
                List.length_pos.mpr hcond.1
              have h2 := spanDigits_length pre'
              have h3 : (spanDigits pre').2.length = qt.length + 1 := by
                rw [hq]; rfl
              omega
            have hih := ih (':' :: qt) ds post
              (by simp only [List.length_cons]; omega) hne hds
            simp only [List.cons_append] at hih
            rw [normFull_colon_match hmLt, normFull_colon_match hmRt,
              hspL, hspR, hq, hcond.2]
            simp only [List.cons_append]
            rw [hih]
          · have hqcolon : (qh == ':') = false ∨ (spanDigits pre').1 = [] := by
              by_cases h1 : (spanDigits pre').1 = []
              · exact Or.inr h1
              · left
                cases hbe : (qh == ':') with
                | false => rfl
                | true => exact absurd ⟨h1, by simpa using hbe⟩ hcond
            have hmf : (!(spanDigits pre').1.isEmpty && (qh == ':')) = false := by
              rcases hqcolon with h | h
              · simp [h]
              · simp [h]
            rw [normFull_colon_nomatch (hmL.trans hmf),
              normFull_colon_nomatch (hmR.trans hmf),
              ih pre' ds post hlen' hne hds]
        | nil =>
          have hpre' : pre' = (spanDigits pre').1 := by
            conv_lhs => rw [← hself]
            rw [hq, List.append_nil]
          cases hemp : (spanDigits pre').1 with
          | nil =>
            have hpn : pre' = [] := by rw [hpre', hemp]
            subst hpn
            have hmLf : subMatch (':' :: (ds ++ (':' :: post))) = false := by
              simp [subMatch, spanDigits]
            have hmRf : subMatch (':' :: ('#' :: (':' :: post))) = false := by
              simp [subMatch, spanDigits]
            simp only [List.nil_append]
            rw [normFull_colon_nomatch hmLf, normFull_colon_nomatch hmRf]
            have hih := ih [] ds post
              (by simp only [List.length_nil]; omega) hne hds
            simp only [List.nil_append] at hih
            rw [hih]
          | cons e es =>
            have hmLt : subMatch (pre' ++ (':' :: (ds ++ (':' :: post)))) = true := by
              rw [subMatch, hspL, hq, hemp]
              simp
            have hmRt : subMatch (pre' ++ (':' :: ('#' :: (':' :: post)))) = true := by
              rw [subMatch, hspR, hq, hemp]
              simp
            rw [normFull_colon_match hmLt, normFull_colon_match hmRt,
              hspL, hspR, hq]
            simp only [List.nil_append]
            have hih := ih [] ds post
              (by simp only [List.length_nil]; omega) hne hds
            simp only [List.nil_append] at hih
            rw [hih]
      · simp only [List.cons_append]
        rw [normFull_cons_ne hc, normFull_cons_ne hc,
          ih pre' ds post hlen' hne hds]

/-- Replacing the digits of any one `:<digits>:` field by `#` does not
change the fully normalized string. -/
theorem normFull_replace (pre ds post : List Char) (hne : ds ≠ [])
    (hds : ∀ c ∈ ds, c.isDigit = true) :
    normFull (pre ++ ':' :: ds ++ ':' :: post) =
      normFull (pre ++ ':' :: '#' :: ':' :: post) := by
  have h := normFull_replace_aux (pre.length + 1) pre ds post (by omega) hne hds
  simpa [List.cons_append, List.append_assoc] using h

/-- Two warning lines that differ only in the digits of one line-number
field have the same normalized key. -/
theorem normalize_line_number_blind (pre ds es post : List Char)
    (hdne : ds ≠ []) (hene : es ≠ [])
    (hds : ∀ c ∈ ds, c.isDigit = true) (hes : ∀ c ∈ es, c.isDigit = true) :
    normalize (pre ++ ':' :: ds ++ ':' :: post) =
      normalize (pre ++ ':' :: es ++ ':' :: post) := by
  rw [normalize_eq_normFull, normalize_eq_normFull,
    normFull_replace pre ds post hdne hds,
    normFull_replace pre es post hene hes]

/-! #### Dict lemmas -/

theorem dbLookup_eq_none_iff (d : Db) (k : List Char) :
    dbLookup d k = none ↔ k ∉ d.map Prod.fst := by
  induction d with
  | nil => simp [dbLookup]
  | cons e rest ih =>
    by_cases h : e.1 = k
    · simp [dbLookup, h]
    · simp [dbLookup, h, ih, Ne.symm h]

theorem dbLookup_append_none {d₁ : Db} {k : List Char} (d₂ : Db)
    (h : dbLookup d₁ k = none) :
    dbLookup (d₁ ++ d₂) k = dbLookup d₂ k := by
  induction d₁ with
  | nil => rfl
  | cons e rest ih =>
    obtain ⟨a, b⟩ := e
    by_cases he : a = k
    · simp [dbLookup, he] at h
    · simp only [dbLookup, if_neg he] at h
      simp only [List.cons_append, dbLookup, if_neg he]
      exact ih h

theorem dbLookup_append_some {d₁ : Db} {k : List Char} {v : Nat} (d₂ : Db)
    (h : dbLookup d₁ k = some v) :
    dbLookup (d₁ ++ d₂) k = some v := by
  induction d₁ with
  | nil => simp [dbLookup] at h
  | cons e rest ih =>
    obtain ⟨a, b⟩ := e
    by_cases he : a = k
    · simp only [dbLookup, if_pos he] at h
      simp only [List.cons_append, dbLookup, if_pos he]
      exact h
    · simp only [dbLookup, if_neg he] at h
      simp only [List.cons_append, dbLookup, if_neg he]
      exact ih h

theorem dbSet_fresh {d : Db} {k : List Char} (v : Nat)
    (h : dbLookup d k = none) :
    dbSet d k v = d ++ [(k, v)] := by
  induction d with
  | nil => rfl
  | cons e rest ih =>
    obtain ⟨a, b⟩ := e
    by_cases he : a = k
    · simp [dbLookup, he] at h
    · simp only [dbLookup, if_neg he] at h
      simp [dbSet, he, ih h]

theorem dbValuesSum_append (a b : Db) :
    dbValuesSum (a ++ b) = dbValuesSum a + dbValuesSum b := by
  simp [dbValuesSum]

theorem diffStep_cases (new_db : Db) (acc : Db × Db) (e : List Char × Nat) :
    diffStep new_db acc e =
      if newCount new_db e.1 < e.2 then
        (dbSet acc.1 e.1 (e.2 - newCount new_db e.1), acc.2)
      else if e.2 < newCount new_db e.1 then
        (acc.1, dbSet acc.2 e.1 (newCount new_db e.1 - e.2))
      else acc := by
  cases h : dbLookup new_db e.1 with
  | none =>
    simp only [diffStep, h, newCount, Option.getD_none]
    by_cases hp : 0 < e.2
    · rw [if_pos (by omega : -(e.2 : Int) < 0), if_pos (by omega : 0 < e.2)]
      have harg : (-(-(e.2 : Int))).toNat = e.2 - 0 := by omega
      rw [harg]
    · have h0 : e.2 = 0 := by omega
      rw [if_neg (by omega : ¬-(e.2 : Int) < 0),
        if_neg (by omega : ¬(0 : Int) < -(e.2 : Int)),
        if_neg (by omega : ¬(0 : Nat) < e.2),
        if_neg (by omega : ¬e.2 < 0)]
  | some n =>
    simp only [diffStep, h, newCount, Option.getD_some]
    rcases lt_trichotomy n e.2 with hlt | heq | hgt
    · rw [if_pos (by omega : (n : Int) - (e.2 : Int) < 0), if_pos hlt]
      have harg : (-((n : Int) - (e.2 : Int))).toNat = e.2 - n := by omega
      rw [harg]
    · rw [if_neg (by omega : ¬(n : Int) - (e.2 : Int) < 0),
        if_neg (by omega : ¬(0 : Int) < (n : Int) - (e.2 : Int)),
        if_neg (by omega : ¬n < e.2), if_neg (by omega : ¬e.2 < n)]
    · rw [if_neg (by omega : ¬(n : Int) - (e.2 : Int) < 0),
        if_pos (by omega : (0 : Int) < (n : Int) - (e.2 : Int)),
        if_neg (by omega : ¬n < e.2), if_pos hgt]
      have harg : ((n : Int) - (e.2 : Int)).toNat = n - e.2 := by omega
      rw [harg]

theorem dbFilterWith_nil (p : List Char × Nat → Bool) (g : List Char × Nat → Nat) :
    dbFilterWith p g [] = [] := rfl

theorem dbFilterWith_cons (p : List Char × Nat → Bool) (g : List Char × Nat → Nat)
    (e : List Char × Nat) (rest : Db) :
    dbFilterWith p g (e :: rest) =
      if p e then (e.1, g e) :: dbFilterWith p g rest
      else dbFilterWith p g rest := by
  cases h : p e <;> simp [dbFilterWith, List.filterMap_cons, h]

theorem dbLookup_dbFilterWith_none (p : List Char × Nat → Bool)
    (g : List Char × Nat → Nat) {k : List Char} :
    ∀ d : Db, dbLookup d k = none → dbLookup (dbFilterWith p g d) k = none := by
  intro d
  induction d with
  | nil => intro _; rfl
  | cons e rest ih =>
    intro h
    obtain ⟨a, b⟩ := e
    by_cases he : a = k
    · simp [dbLookup, he] at h
    · simp only [dbLookup, if_neg he] at h
      rw [dbFilterWith_cons]
      cases hp : p (a, b) with
      | true => simp only [if_true]; simp only [dbLookup, if_neg he]; exact ih h
      | false => simp only [if_false]; exact ih h

theorem dbLookup_dbFilterWith_some (p : List Char × Nat → Bool)
    (g : List Char × Nat → Nat) {k : List Char} {c : Nat} :
    ∀ d : Db, (d.map Prod.fst).Nodup → dbLookup d k = some c →
      dbLookup (dbFilterWith p g d) k =
        if p (k, c) then some (g (k, c)) else none := by
  intro d
  induction d with
  | nil => intro _ h; simp [dbLookup] at h
  | cons e rest ih =>
    intro hnd h
    obtain ⟨a, b⟩ := e
    rw [List.map_cons] at hnd
    have hnd2 := List.nodup_cons.mp hnd
    by_cases he : a = k
    · subst he
      have hbc : b = c := by simpa [dbLookup] using h
      subst hbc
      have hrest : dbLookup rest a = none :=
        (dbLookup_eq_none_iff rest a).mpr hnd2.1
      rw [dbFilterWith_cons]
      cases hp : p (a, b) with
      | true =>
        simp only [if_true, dbLookup, if_pos rfl]
      | false =>
        simp only [if_false]
        exact dbLookup_dbFilterWith_none p g rest hrest
    · simp only [dbLookup, if_neg he] at h
      rw [dbFilterWith_cons]
      cases hp : p (a, b) with
      | true =>
        simp only [if_true, dbLookup, if_neg he]
        exact ih hnd2.2 h
      | false =>
        simp only [if_false]
        exact ih hnd2.2 h

theorem dbValuesSum_dbFilterWith (p : List Char × Nat → Bool)
    (g : List Char × Nat → Nat) :
    ∀ d : Db, dbValuesSum (dbFilterWith p g d) =
      (d.map (fun e => if p e then g e else 0)).sum := by
  intro d
  induction d with
  | nil => rfl
  | cons e rest ih =>
    rw [dbFilterWith_cons]
    cases hp : p e with
    | true =>
      simp only [if_true, List.map_cons, List.sum_cons, hp]
      have hcons : dbValuesSum ((e.1, g e) :: dbFilterWith p g rest) =
          g e + dbValuesSum (dbFilterWith p g rest) := by
        simp [dbValuesSum]
      rw [hcons, ih]
    | false =>
      simp only [if_false, List.map_cons, List.sum_cons, hp]
      simp [ih]

theorem removedOf_cons (a : List Char) (b : Nat) (rest new_db : Db) :
    removedOf ((a, b) :: rest) new_db =
      if newCount new_db a < b then
        (a, b - newCount new_db a) :: removedOf rest new_db
      else removedOf rest new_db := by
  by_cases hq : newCount new_db a < b <;>
    simp [removedOf, dbFilterWith_cons, hq]

theorem addedOldOf_cons (a : List Char) (b : Nat) (rest new_db : Db) :
    addedOldOf ((a, b) :: rest) new_db =
      if b < newCount new_db a then
        (a, newCount new_db a - b) :: addedOldOf rest new_db
      else addedOldOf rest new_db := by
  by_cases hq : b < newCount new_db a <;>
    simp [addedOldOf, dbFilterWith_cons, hq]

theorem dbLookup_append_single_none {d : Db} {k a : List Char} (v : Nat)
    (h : dbLookup d k = none) (hne : a ≠ k) :
    dbLookup (d ++ [(a, v)]) k = none := by
  rw [dbLookup_append_none _ h]
  simp [dbLookup, hne]

theorem foldl_diffStep (new_db : Db) :
    ∀ (old : Db) (acc : Db × Db),
      (old.map Prod.fst).Nodup →
      (∀ e ∈ old, dbLookup acc.1 e.1 = none) →
      (∀ e ∈ old, dbLookup acc.2 e.1 = none) →
      old.foldl (diffStep new_db) acc =
        (acc.1 ++ removedOf old new_db, acc.2 ++ addedOldOf old new_db) := by
  intro old
  induction old with
  | nil =>
    intro acc _ _ _
    simp [removedOf, addedOldOf, dbFilterWith]
  | cons e rest ih =>
    intro acc hnd h1 h2
    obtain ⟨a, b⟩ := e
    rw [List.map_cons] at hnd
    have hnd2 := List.nodup_cons.mp hnd
    have ha1 : dbLookup acc.1 a = none := h1 (a, b) (by simp)
    have ha2 : dbLookup acc.2 a = none := h2 (a, b) (by simp)
    have hne : ∀ e' ∈ rest, a ≠ e'.1 := by
      intro e' he' hcontra
      apply hnd2.1
      rw [hcontra]
      exact List.mem_map.mpr ⟨e', he', rfl⟩
    simp only [List.foldl_cons]
    rw [diffStep_cases]
    by_cases hlt : newCount new_db a < b
    · rw [if_pos hlt, dbSet_fresh _ ha1]
      rw [ih (acc.1 ++ [(a, b - newCount new_db a)], acc.2) hnd2.2
        (fun e' he' => dbLookup_append_single_none _
          (h1 e' (List.mem_cons_of_mem _ he')) (hne e' he'))
        (fun e' he' => h2 e' (List.mem_cons_of_mem _ he'))]
      rw [removedOf_cons, addedOldOf_cons, if_pos hlt,
        if_neg (by omega : ¬b < newCount new_db a)]
      simp [List.append_assoc]
    · rw [if_neg hlt]
      by_cases hgt : b < newCount new_db a
      · rw [if_pos hgt, dbSet_fresh _ ha2]
        rw [ih (acc.1, acc.2 ++ [(a, newCount new_db a - b)]) hnd2.2
          (fun e' he' => h1 e' (List.mem_cons_of_mem _ he'))
          (fun e' he' => dbLookup_append_single_none _
            (h2 e' (List.mem_cons_of_mem _ he')) (hne e' he'))]
        rw [removedOf_cons, addedOldOf_cons, if_neg hlt, if_pos hgt]
        simp [List.append_assoc]
      · rw [if_neg hgt]
        rw [ih acc hnd2.2
          (fun e' he' => h1 e' (List.mem_cons_of_mem _ he'))
          (fun e' he' => h2 e' (List.mem_cons_of_mem _ he'))]
        rw [removedOf_cons, addedOldOf_cons, if_neg hlt, if_neg hgt]

theorem addedNewOf_cons (old_db : Db) (x : List Char) (y : Nat) (rest : Db) :
    addedNewOf old_db ((x, y) :: rest) =
      if (dbLookup old_db x).isSome then addedNewOf old_db rest
      else (x, y) :: addedNewOf old_db rest := by
  cases ho : dbLookup old_db x <;>
    simp [addedNewOf, List.filter_cons, ho]

theorem foldl_addedStep (old_db : Db) :
    ∀ (new : Db) (a : Db),
      (new.map Prod.fst).Nodup →
      (∀ e ∈ new, dbLookup old_db e.1 = none → dbLookup a e.1 = none) →
      new.foldl (addedStep old_db) a = a ++ addedNewOf old_db new := by
  intro new
  induction new with
  | nil =>
    intro a _ _
    simp [addedNewOf]
  | cons e rest ih =>
    intro a hnd hpre
    obtain ⟨x, y⟩ := e
    rw [List.map_cons] at hnd
    have hnd2 := List.nodup_cons.mp hnd
    have hne : ∀ e' ∈ rest, x ≠ e'.1 := by
      intro e' he' hcontra
      apply hnd2.1
      rw [hcontra]
      exact List.mem_map.mpr ⟨e', he', rfl⟩
    simp only [List.foldl_cons, addedStep]
    cases ho : dbLookup old_db x with
    | some v =>
      rw [if_pos (by simp [ho])]
      rw [ih a hnd2.2 (fun e' he' => hpre e' (List.mem_cons_of_mem _ he'))]
      rw [addedNewOf_cons, if_pos (by simp [ho])]
    | none =>
      rw [if_neg (by simp [ho])]
      rw [dbSet_fresh _ (hpre (x, y) (by simp) ho)]
      rw [ih (a ++ [(x, y)]) hnd2.2
        (fun e' he' hn => dbLookup_append_single_none _
          (hpre e' (List.mem_cons_of_mem _ he') hn) (hne e' he'))]
      rw [addedNewOf_cons, if_neg (by simp [ho])]
      simp [List.append_assoc]

/-- Under the unique-key invariant of Python dicts, `get_diff` computes
exactly the three per-key contribution lists. -/
theorem get_diff_closed (t : WarningTracker)
    (hOld : (t.old_db.map Prod.fst).Nodup)
    (hNew : (t.new_db.map Prod.fst).Nodup) :
    t.get_diff = (removedOf t.old_db t.new_db,
      addedOldOf t.old_db t.new_db ++ addedNewOf t.old_db t.new_db) := by
  simp only [WarningTracker.get_diff]
  rw [foldl_diffStep t.new_db t.old_db ([], []) hOld
    (fun e _ => rfl) (fun e _ => rfl)]
  simp only [List.nil_append]
  rw [foldl_addedStep t.old_db t.new_db (addedOldOf t.old_db t.new_db) hNew
    (fun e _ hn => dbLookup_dbFilterWith_none _ _ t.old_db hn)]

theorem dbLookup_addedNewOf_of_old_some (old_db : Db) {k : List Char} {v : Nat}
    (h : dbLookup old_db k = some v) :
    ∀ new : Db, dbLookup (addedNewOf old_db new) k = none := by
  intro new
  induction new with
  | nil => rfl
  | cons e rest ih =>
    obtain ⟨x, y⟩ := e
    rw [addedNewOf_cons]
    by_cases hx : x = k
    · subst hx
      rw [if_pos (by simp [h])]
      exact ih
    · cases ho : (dbLookup old_db x).isSome with
      | true =>
        rw [if_pos rfl]
        exact ih
      | false =>
        rw [if_neg (by simp)]
        simp only [dbLookup, if_neg hx]
        exact ih

theorem dbLookup_addedNewOf_of_old_none (old_db : Db) {k : List Char}
    (h : dbLookup old_db k = none) :
    ∀ new : Db, dbLookup (addedNewOf old_db new) k = dbLookup new k := by
  intro new
  induction new with
  | nil => rfl
  | cons e rest ih =>
    obtain ⟨x, y⟩ := e
    rw [addedNewOf_cons]
    by_cases hx : x = k
    · subst hx
      rw [if_neg (by simp [h])]
      simp only [dbLookup, if_pos rfl]
      simp
    · cases ho : (dbLookup old_db x).isSome with
      | true =>
        rw [if_pos rfl, ih]
        simp only [dbLookup, if_neg hx]
      | false =>
        rw [if_neg (by simp)]
        simp only [dbLookup, if_neg hx]
        exact ih

theorem get_diff_lookup_some (t : WarningTracker)
    (hOld : (t.old_db.map Prod.fst).Nodup)
    (hNew : (t.new_db.map Prod.fst).Nodup)
    {k : List Char} {c : Nat} (h : dbLookup t.old_db k = some c) :
    dbLookup t.get_diff.1 k =
      (if newCount t.new_db k < c then some (c - newCount t.new_db k) else none)
    ∧ dbLookup t.get_diff.2 k =
      (if c < newCount t.new_db k then some (newCount t.new_db k - c) else none) := by
  rw [get_diff_closed t hOld hNew]
  have hrem := dbLookup_dbFilterWith_some
    (fun e => decide (newCount t.new_db e.1 < e.2))
    (fun e => e.2 - newCount t.new_db e.1) t.old_db hOld h
  have hadd := dbLookup_dbFilterWith_some
    (fun e => decide (e.2 < newCount t.new_db e.1))
    (fun e => newCount t.new_db e.1 - e.2) t.old_db hOld h
  constructor
  · rw [removedOf] at *
    rw [hrem]
    by_cases hq : newCount t.new_db k < c
    · rw [if_pos (by simp [hq]), if_pos hq]
    · rw [if_neg (by simp [hq]), if_neg hq]
  · by_cases hq : c < newCount t.new_db k
    · rw [if_pos hq]
      have : dbLookup (addedOldOf t.old_db t.new_db) k =
          some (newCount t.new_db k - c) := by
        rw [addedOldOf, hadd, if_pos (by simp [hq])]
      exact dbLookup_append_some _ this
    · rw [if_neg hq]
      have h1 : dbLookup (addedOldOf t.old_db t.new_db) k = none := by
        rw [addedOldOf, hadd, if_neg (by simp [hq])]
      rw [dbLookup_append_none _ h1]
      exact dbLookup_addedNewOf_of_old_some t.old_db h t.new_db

theorem get_diff_lookup_none (t : WarningTracker)
    (hOld : (t.old_db.map Prod.fst).Nodup)
    (hNew : (t.new_db.map Prod.fst).Nodup)
    {k : List Char} (h : dbLookup t.old_db k = none) :
    dbLookup t.get_diff.1 k = none
    ∧ dbLookup t.get_diff.2 k = dbLookup t.new_db k := by
  rw [get_diff_closed t hOld hNew]
  refine ⟨dbLookup_dbFilterWith_none _ _ t.old_db h, ?_⟩
  show dbLookup (addedOldOf t.old_db t.new_db ++ addedNewOf t.old_db t.new_db) k
    = dbLookup t.new_db k
  have h1 : dbLookup (addedOldOf t.old_db t.new_db) k = none :=
    dbLookup_dbFilterWith_none _ _ t.old_db h
  rw [dbLookup_append_none _ h1]
  exact dbLookup_addedNewOf_of_old_none t.old_db h t.new_db

theorem diff_totals_closed (t : WarningTracker)
    (hOld : (t.old_db.map Prod.fst).Nodup)
    (hNew : (t.new_db.map Prod.fst).Nodup) :
    t.diff_totals =
      ((t.old_db.map (fun e => e.2 - newCount t.new_db e.1)).sum,
        (t.old_db.map (fun e => newCount t.new_db e.1 - e.2)).sum
          + dbValuesSum (addedNewOf t.old_db t.new_db)) := by
  have hrem : dbValuesSum (removedOf t.old_db t.new_db) =
      (t.old_db.map (fun e => e.2 - newCount t.new_db e.1)).sum := by
    rw [removedOf, dbValuesSum_dbFilterWith]
    refine congrArg List.sum (List.map_congr_left ?_)
    intro e _
    by_cases hq : newCount t.new_db e.1 < e.2
    · rw [if_pos (by simp [hq])]
    · rw [if_neg (by simp [hq])]
      omega
  have hadd : dbValuesSum (addedOldOf t.old_db t.new_db) =
      (t.old_db.map (fun e => newCount t.new_db e.1 - e.2)).sum := by
    rw [addedOldOf, dbValuesSum_dbFilterWith]
    refine congrArg List.sum (List.map_congr_left ?_)
    intro e _
    by_cases hq : e.2 < newCount t.new_db e.1
    · rw [if_pos (by simp [hq])]
    · rw [if_neg (by simp [hq])]
      omega
  simp only [WarningTracker.diff_totals, get_diff_closed t hOld hNew,
    dbValuesSum_append, hrem, hadd]

/-! #### Invariants of the selector loop -/

theorem foldlM_except_append {β : Type} (f : β → List Char → Except Unit β)
    (l₁ : List (List Char)) :
    ∀ (b : β) (l₂ : List (List Char)),
      List.foldlM f b (l₁ ++ l₂) =
        (List.foldlM f b l₁).bind (fun b2 => List.foldlM f b2 l₂) := by
  induction l₁ with
  | nil => intro b l₂; rfl
  | cons a l₁ ih =>
    intro b l₂
    simp only [List.cons_append, List.foldlM_cons]
    cases hf : f b a with
    | error e => rfl
    | ok b1 => exact ih b1 l₂

theorem foldlM_except_snoc {β : Type} (f : β → List Char → Except Unit β)
    (l : List (List Char)) (b b1 b2 : β) (a : List Char)
    (h1 : List.foldlM f b l = .ok b1) (h2 : f b1 a = .ok b2) :
    List.foldlM f b (l ++ [a]) = .ok b2 := by
  rw [foldlM_except_append f l b [a], h1]
  show List.foldlM f b1 [a] = .ok b2
  simp [List.foldlM, h2]

theorem muxRun_out_nil (sched : List Src) (st : MuxState)
    (hp : st.outPending = []) :
    muxRun (.out :: sched) st = .ok (st, true) := by
  rw [muxRun, hp]

theorem muxRun_out_cons (sched : List Src) (st : MuxState) (l : List Char)
    (ls : List (List Char)) (hp : st.outPending = l :: ls) :
    muxRun (.out :: sched) st =
      match stepStdout st.outSt l with
      | .error e => .error e
      | .ok o =>
        muxRun sched
          { st with
            outPending := ls
            fedOut := st.fedOut ++ [l]
            outSt := o } := by
  rw [muxRun, hp]

theorem muxRun_err_nil (sched : List Src) (st : MuxState)
    (hp : st.errPending = []) :
    muxRun (.err :: sched) st = .ok (st, true) := by
  rw [muxRun, hp]

theorem muxRun_err_cons (sched : List Src) (st : MuxState) (l : List Char)
    (ls : List (List Char)) (hp : st.errPending = l :: ls) :
    muxRun (.err :: sched) st =
      match stepStderr st.errSt l with
      | .error e => .error e
      | .ok e2 =>
        muxRun sched
          { st with
            errPending := ls
            fedErr := st.fedErr ++ [l]
            errSt := e2 } := by
  rw [muxRun, hp]

theorem muxRun_invariant :
    ∀ (sched : List Src) (st st' : MuxState) (b : Bool),
      muxRun sched st = .ok (st', b) →
      st'.fedOut ++ st'.outPending = st.fedOut ++ st.outPending
      ∧ st'.fedErr ++ st'.errPending = st.fedErr ++ st.errPending
      ∧ st.fedOut <+: st'.fedOut
      ∧ st.fedErr <+: st'.fedErr
      ∧ (∀ o0 : MakeOut, List.foldlM stepStdout o0 st.fedOut = .ok st.outSt →
          List.foldlM stepStdout o0 st'.fedOut = .ok st'.outSt)
      ∧ (∀ e0 : ErrLoop, List.foldlM stepStderr e0 st.fedErr = .ok st.errSt →
          List.foldlM stepStderr e0 st'.fedErr = .ok st'.errSt)
      ∧ (b = true → st'.outPending = [] ∨ st'.errPending = []) := by
  intro sched
  induction sched with
  | nil =>
    intro st st' b h
    simp only [muxRun, Except.ok.injEq, Prod.mk.injEq] at h
    obtain ⟨rfl, rfl⟩ := h
    refine ⟨rfl, rfl, List.prefix_rfl, List.prefix_rfl,
      fun o0 h => h, fun e0 h => h, ?_⟩
    intro hfalse
    exact absurd hfalse (by simp)
  | cons s sched ih =>
    intro st st' b h
    cases s with
    | out =>
      cases hp : st.outPending with
      | nil =>
        rw [muxRun_out_nil sched st hp] at h
        simp only [Except.ok.injEq, Prod.mk.injEq] at h
        obtain ⟨rfl, rfl⟩ := h
        exact ⟨by rw [hp], rfl, List.prefix_rfl, List.prefix_rfl,
          fun o0 h => h, fun e0 h => h, fun _ => Or.inl hp⟩
      | cons l ls =>
        rw [muxRun_out_cons sched st l ls hp] at h
        cases hstep : stepStdout st.outSt l with
        | error e => rw [hstep] at h; simp at h
        | ok o =>
          rw [hstep] at h
          obtain ⟨e1, e2, e3, e4, e5, e6, e7⟩ := ih _ st' b h
          refine ⟨?_, e2, ?_, e4, ?_, e6, e7⟩
          · rw [e1]
            simp
          · exact List.IsPrefix.trans (List.prefix_append _ _) e3
          · intro o0 h0
            exact e5 o0 (foldlM_except_snoc stepStdout st.fedOut o0
              st.outSt o l h0 hstep)
    | err =>
      cases hp : st.errPending with
      | nil =>
        rw [muxRun_err_nil sched st hp] at h
        simp only [Except.ok.injEq, Prod.mk.injEq] at h
        obtain ⟨rfl, rfl⟩ := h
        exact ⟨rfl, by rw [hp], List.prefix_rfl, List.prefix_rfl,
          fun o0 h => h, fun e0 h => h, fun _ => Or.inr hp⟩
      | cons l ls =>
        rw [muxRun_err_cons sched st l ls hp] at h
        cases hstep : stepStderr st.errSt l with
        | error e => rw [hstep] at h; simp at h
        | ok e2st =>
          rw [hstep] at h
          obtain ⟨e1, e2, e3, e4, e5, e6, e7⟩ := ih _ st' b h
          refine ⟨e1, ?_, e3, ?_, e5, ?_, e7⟩
          · rw [e2]
            simp
          · exact List.IsPrefix.trans (List.prefix_append _ _) e4
          · intro e0 h0
            exact e6 e0 (foldlM_except_snoc stepStderr st.fedErr e0
              st.errSt e2st l h0 hstep)

/-! #### Per-line and per-run facts about the stdout branch -/

theorem stepStdout_ok_flags {st st1 : MakeOut} {line : List Char}
    (h : stepStdout st line = .ok st1) :
    (st1.status = .pass ↔ (st.status = .pass ∨ hasSub SUCCESS_MARKER line = true))
    ∧ (st1.rerun = true ↔ (st.rerun = true ∨
        (hasSub RERUN_MARKER line = true ∧ hasSub SUCCESS_MARKER line = false))) := by
  by_cases hs : hasSub SUCCESS_MARKER line = true
  · rw [stepStdout, if_pos hs] at h
    cases hd : firstDigitRun line with
    | none => rw [hd] at h; simp at h
    | some ds =>
      rw [hd] at h
      simp only [Except.ok.injEq] at h
      subst h
      constructor
      · simp [hs]
      · simp [hs]
  · have hs' : hasSub SUCCESS_MARKER line = false := by
      simpa using hs
    rw [stepStdout, if_neg hs] at h
    by_cases hr : hasSub RERUN_MARKER line = true
    · rw [if_pos hr] at h
      simp only [Except.ok.injEq] at h
      subst h
      constructor
      · simp [hs']
      · simp [hr, hs']
    · rw [if_neg hr] at h
      have hr' : hasSub RERUN_MARKER line = false := by simpa using hr
      by_cases ht : hasSub PROGRESS_TOKEN line = true
      · rw [if_pos ht] at h
        simp only [Except.ok.injEq] at h
        subst h
        constructor
        · simp [hs']
        · simp [hr']
      · rw [if_neg ht] at h
        simp only [Except.ok.injEq] at h
        subst h
        constructor
        · simp [hs']
        · simp [hr']

theorem runStdout_flags :
    ∀ (lines : List (List Char)) (st st1 : MakeOut),
      List.foldlM stepStdout st lines = .ok st1 →
      (st1.status = .pass ↔
        (st.status = .pass ∨ ∃ l ∈ lines, hasSub SUCCESS_MARKER l = true))
      ∧ (st1.rerun = true ↔
        (st.rerun = true ∨ ∃ l ∈ lines,
          hasSub RERUN_MARKER l = true ∧ hasSub SUCCESS_MARKER l = false)) := by
  intro lines
  induction lines with
  | nil =>
    intro st st1 h
    have h3 : (Except.ok st : Except Unit MakeOut) = .ok st1 := h
    have hst : st = st1 := by simpa using h3
    subst hst
    constructor <;> simp
  | cons l rest ih =>
    intro st st1 h
    rw [List.foldlM_cons] at h
    cases hstep : stepStdout st l with
    | error e =>
      rw [hstep] at h
      have h3 : (Except.error e : Except Unit MakeOut) = .ok st1 := h
      simp at h3
    | ok m =>
      rw [hstep] at h
      have h2 : List.foldlM stepStdout m rest = .ok st1 := h
      obtain ⟨istat, irer⟩ := ih m st1 h2
      obtain ⟨sstat, srer⟩ := stepStdout_ok_flags hstep
      constructor
      · rw [istat, sstat]
        simp only [List.mem_cons]
        constructor
        · rintro ((h | h) | ⟨x, hx, hP⟩)
          · exact Or.inl h
          · exact Or.inr ⟨l, Or.inl rfl, h⟩
          · exact Or.inr ⟨x, Or.inr hx, hP⟩
        · rintro (h | ⟨x, (rfl | hx), hP⟩)
          · exact Or.inl (Or.inl h)
          · exact Or.inl (Or.inr hP)
          · exact Or.inr ⟨x, hx, hP⟩
      · rw [irer, srer]
        simp only [List.mem_cons]
        constructor
        · rintro ((h | h) | ⟨x, hx, hP⟩)
          · exact Or.inl h
          · exact Or.inr ⟨l, Or.inl rfl, h⟩
          · exact Or.inr ⟨x, Or.inr hx, hP⟩
        · rintro (h | ⟨x, (rfl | hx), hP⟩)
          · exact Or.inl (Or.inl h)
          · exact Or.inl (Or.inr hP)
          · exact Or.inr ⟨x, hx, hP⟩

/-! #### Per-line and per-run facts about the stderr branch -/

theorem stepStderr_error_line (st : ErrLoop) (line : List Char)
    (h : classifyStderr line = .errorDiag) :
    stepStderr st line = .ok
      { st with compiler_log := st.compiler_log ++ line,
                error_log := st.error_log ++ st.context ++ line,
                context := [] } := by
  rw [stepStderr, h]

theorem stepStderr_linker_line (st : ErrLoop) (line : List Char)
    (h : classifyStderr line = .linkerDiag) :
    stepStderr st line = .ok
      { st with compiler_log := st.compiler_log ++ line,
                linker_log := st.linker_log ++ st.context ++ line,
                context := [] } := by
  rw [stepStderr, h]

theorem stepStderr_warning_line (st : ErrLoop) (line : List Char)
    (tr2 : Option WarningTracker)
    (h : classifyStderr line = .warningDiag)
    (htr : stepWarningTracker st.tracker (st.context ++ line) = .ok tr2) :
    stepStderr st line = .ok
      { st with compiler_log := st.compiler_log ++ line,
                tracker := tr2,
                context := [] } := by
  rw [stepStderr, h, htr]

theorem stepStderr_context_line (st : ErrLoop) (line : List Char)
    (h : classifyStderr line = .contextLine) :
    stepStderr st line = .ok
      { st with compiler_log := st.compiler_log ++ line,
                context := st.context ++ line } := by
  rw [stepStderr, h]

theorem stepStderr_noise_line (st : ErrLoop) (line : List Char)
    (h : classifyStderr line = .ignoredNoise) :
    stepStderr st line = .ok
      { st with compiler_log := st.compiler_log ++ line } := by
  rw [stepStderr, h]

theorem stepStderr_warning_log_const {st st1 : ErrLoop} {line : List Char}
    (h : stepStderr st line = .ok st1) :
    st1.warning_log = st.warning_log := by
  cases hc : classifyStderr line with
  | ignoredNoise =>
    rw [stepStderr_noise_line st line hc] at h
    simp only [Except.ok.injEq] at h
    subst h
    rfl
  | linkerDiag =>
    rw [stepStderr_linker_line st line hc] at h
    simp only [Except.ok.injEq] at h
    subst h
    rfl
  | errorDiag =>
    rw [stepStderr_error_line st line hc] at h
    simp only [Except.ok.injEq] at h
    subst h
    rfl
  | contextLine =>
    rw [stepStderr_context_line st line hc] at h
    simp only [Except.ok.injEq] at h
    subst h
    rfl
  | warningDiag =>
    cases htr : stepWarningTracker st.tracker (st.context ++ line) with
    | error e =>
      rw [stepStderr, hc, htr] at h
      simp at h
    | ok tr2 =>
      rw [stepStderr_warning_line st line tr2 hc htr] at h
      simp only [Except.ok.injEq] at h
      subst h
      rfl

theorem runStderr_warning_log_const :
    ∀ (lines : List (List Char)) (st st1 : ErrLoop),
      List.foldlM stepStderr st lines = .ok st1 →
      st1.warning_log = st.warning_log := by
  intro lines
  induction lines with
  | nil =>
    intro st st1 h
    have h3 : (Except.ok st : Except Unit ErrLoop) = .ok st1 := h
    have hst : st = st1 := by simpa using h3
    subst hst
    rfl
  | cons l rest ih =>
    intro st st1 h
    rw [List.foldlM_cons] at h
    cases hstep : stepStderr st l with
    | error e =>
      rw [hstep] at h
      have h3 : (Except.error e : Except Unit ErrLoop) = .ok st1 := h
      simp at h3
    | ok m =>
      rw [hstep] at h
      have h2 : List.foldlM stepStderr m rest = .ok st1 := h
      rw [ih m st1 h2, stepStderr_warning_log_const hstep]

/-! ### Claim theorems -/

/-- C1, amended: for every pair of stream contents and every interleaving,
the stream-multiplexing loop of a build run feeds to the line classifier
exactly the lines it has read, which form, for each stream, an in-order
prefix of that stream's contents (the per-stream states are the folds of
the per-line handlers over the fed lines); but the loop terminates at the
FIRST end-of-stream read rather than when both streams have ended, so an
interleaving that reads one stream's end-of-stream while the other stream
still has unread lines drops those lines. -/
theorem mux_loop_feeds_prefixes_and_stops_at_first_eof
    (out err : List (List Char)) (tr : Option WarningTracker)
    (sched : List Src) (st' : MuxState) (b : Bool)
    (h : muxRun sched (initMux out err tr) = .ok (st', b)) :
    st'.fedOut ++ st'.outPending = out
    ∧ st'.fedErr ++ st'.errPending = err
    ∧ List.foldlM stepStdout initOut st'.fedOut = .ok st'.outSt
    ∧ List.foldlM stepStderr (initErr tr) st'.fedErr = .ok st'.errSt
    ∧ (b = true → st'.outPending = [] ∨ st'.errPending = []) := by
  obtain ⟨e1, e2, _, _, e5, e6, e7⟩ := muxRun_invariant sched _ st' b h
  exact ⟨by simpa [initMux] using e1, by simpa [initMux] using e2,
    e5 initOut rfl, e6 (initErr tr) rfl, e7⟩

/-- C1 counterexample: with empty stdout contents and one pending stderr
line, the interleaving that reads stdout first observes end-of-stream
there; the loop terminates at once and the stderr line is never fed to
the classifier, refuting "terminates only when both streams have reached
end-of-stream" and "no line of either stream is dropped". -/
theorem mux_loop_drops_pending_stderr_cex :
    muxRun [Src.out] (initMux [] [chars "x: warning: y"] none) =
      .ok (initMux [] [chars "x: warning: y"] none, true)
    ∧ (initMux [] [chars "x: warning: y"] none).fedErr = []
    ∧ (initMux [] [chars "x: warning: y"] none).errPending =
        [chars "x: warning: y"] :=
  ⟨rfl, rfl, rfl⟩

/-- C1 witness: a concrete terminated run of the loop. -/
theorem mux_loop_feeds_prefixes_witness :
    ({ outPending := [], errPending := [], fedOut := [chars "ok"], fedErr := [],
       outSt := initOut, errSt := initErr none } : MuxState).fedOut ++
      ({ outPending := [], errPending := [], fedOut := [chars "ok"],
         fedErr := [], outSt := initOut,
         errSt := initErr none } : MuxState).outPending = [chars "ok"] := by
  have h := mux_loop_feeds_prefixes_and_stops_at_first_eof [chars "ok"] [] none
    [Src.out, Src.out]
    { outPending := [], errPending := [], fedOut := [chars "ok"], fedErr := [],
      outSt := initOut, errSt := initErr none } true rfl
  exact h.1

/-- Propagation: an IndexError in the stdout fold aborts the whole
`_make` call. -/
theorem make_stdout_error {out err : List (List Char)}
    {tr : Option WarningTracker} {rc : Int}
    (h : List.foldlM stepStdout initOut out = .error ()) :
    make out err tr rc = .error () := by
  unfold make
  rw [h]
  rfl

/-- C2, amended: a stdout line containing the success marker but no
decimal digit does not complete non-fatally: `int(findall(...)[0])`
raises an uncaught IndexError, so the run aborts instead of returning a
SUCCESS outcome with the size left unset. -/
theorem success_line_without_digits_raises (st : MakeOut) (line : List Char)
    (hs : hasSub SUCCESS_MARKER line = true)
    (hd : firstDigitRun line = none) :
    stepStdout st line = .error ()
    ∧ ∀ (rest err : List (List Char)) (tr : Option WarningTracker) (rc : Int),
        make (line :: rest) err tr rc = .error () := by
  have h1 : ∀ st0 : MakeOut, stepStdout st0 line = .error () := by
    intro st0
    rw [stepStdout, if_pos hs, hd]
  refine ⟨h1 st, ?_⟩
  intro rest err tr rc
  apply make_stdout_error
  rw [List.foldlM_cons, h1 initOut]
  rfl

/-- C2 counterexample: the success-marker line with no digits makes the
run raise, so its outcome is not SUCCESS-with-unset-size as claimed. -/
theorem success_line_without_digits_cex :
    hasSub SUCCESS_MARKER (chars "Size of flash image") = true
    ∧ firstDigitRun (chars "Size of flash image") = none
    ∧ make [chars "Size of flash image"] [] none 0 = .error () :=
  ⟨by decide, by decide, rfl⟩

/-- C2 witness: the amended behavior at a concrete line. -/
theorem success_line_without_digits_witness :
    stepStdout initOut (chars "Size of flash image") = .error ()
    ∧ make [chars "Size of flash image"] [] none 0 = .error () := by
  have h := success_line_without_digits_raises initOut
    (chars "Size of flash image") (by decide) (by decide)
  exact ⟨h.1, h.2 [] [] none 0⟩

/-- C3, amended: a stderr line containing `: warning:` is classified
WARNING_DIAGNOSTIC regardless of additional substrings, provided not only
the temporary-object fragment `/tmp/cc` but also the higher-precedence
error rule's substrings `: error:` and `: undefined reference` are absent
(the linker rule can never fire on such a line because it requires
`warning:` to be absent). -/
theorem warning_line_classification (line : List Char)
    (hw : hasSub (chars ": warning:") line = true)
    (htmp : hasSub (chars "/tmp/cc") line = false)
    (herr : hasSub (chars ": error:") line = false)
    (hund : hasSub (chars ": undefined reference") line = false) :
    classifyStderr line = .warningDiag := by
  have hsub : chars "warning:" <:+: chars ": warning:" := by decide
  have hw2 : hasSub (chars "warning:") line = true :=
    (hasSub_iff _ _).mpr (hsub.trans ((hasSub_iff _ _).mp hw))
  rw [classifyStderr, if_neg (by simp [htmp]), if_neg (by simp [hw2]),
    if_neg (by simp [herr, hund]), if_pos hw]

/-- C3 counterexample: a stderr line containing both `: error:` and
`: warning:` (and no `/tmp/cc`) is classified ERROR_DIAGNOSTIC, not
WARNING_DIAGNOSTIC, because the error rule has higher precedence. -/
theorem warning_line_classification_cex :
    hasSub (chars ": warning:") (chars "a.c:1: error: x: warning: y") = true
    ∧ hasSub (chars "/tmp/cc") (chars "a.c:1: error: x: warning: y") = false
    ∧ classifyStderr (chars "a.c:1: error: x: warning: y") = .errorDiag :=
  ⟨by decide, by decide, by decide⟩

/-- C3 witness: the amended classification at a concrete warning line. -/
theorem warning_line_classification_witness :
    classifyStderr (chars "foo.c:3: warning: blah") = .warningDiag :=
  warning_line_classification (chars "foo.c:3: warning: blah")
    (by decide) (by decide) (by decide) (by decide)

/-- C4: on unique-key generations, `get_diff` computes a per-key count
delta `new.count(k) - old.count(k)` (absent key counted 0): a key of old
contributes `-delta` to removed when `delta < 0` and `delta` to added when
`delta > 0`; a key only in new contributes its full count to added; the
printed totals are the sums of those contributions. -/
theorem get_diff_multiset_count_delta (t : WarningTracker)
    (hOld : (t.old_db.map Prod.fst).Nodup)
    (hNew : (t.new_db.map Prod.fst).Nodup) :
    (∀ (k : List Char) (c : Nat), dbLookup t.old_db k = some c →
      dbLookup t.get_diff.1 k =
        (if ((newCount t.new_db k : Int) - c) < 0
         then some (-((newCount t.new_db k : Int) - c)).toNat else none)
      ∧ dbLookup t.get_diff.2 k =
        (if 0 < ((newCount t.new_db k : Int) - c)
         then some ((newCount t.new_db k : Int) - c).toNat else none))
    ∧ (∀ k : List Char, dbLookup t.old_db k = none →
        dbLookup t.get_diff.1 k = none
        ∧ dbLookup t.get_diff.2 k = dbLookup t.new_db k)
    ∧ t.diff_totals =
        ((t.old_db.map (fun e => e.2 - newCount t.new_db e.1)).sum,
         (t.old_db.map (fun e => newCount t.new_db e.1 - e.2)).sum
           + dbValuesSum (addedNewOf t.old_db t.new_db)) := by
  refine ⟨?_, fun k h => get_diff_lookup_none t hOld hNew h,
    diff_totals_closed t hOld hNew⟩
  intro k c h
  obtain ⟨h1, h2⟩ := get_diff_lookup_some t hOld hNew h
  constructor
  · rw [h1]
    by_cases hq : newCount t.new_db k < c
    · rw [if_pos hq, if_pos (by omega)]
      congr 1
      omega
    · rw [if_neg hq, if_neg (by omega)]
  · rw [h2]
    by_cases hq : c < newCount t.new_db k
    · rw [if_pos hq, if_pos (by omega)]
      congr 1
      omega
    · rw [if_neg hq, if_neg (by omega)]

/-- C4 witness: the spec's scenario C: warning x is unchanged, warning y
is newly added once; totals are 0 removed, 1 added. -/
theorem get_diff_multiset_count_delta_witness :
    dbLookup scenC.get_diff.1 (chars "a.c:#: warning: unused variable x") = none
    ∧ dbLookup scenC.get_diff.2 (chars "a.c:#: warning: unused variable y") = some 1
    ∧ scenC.diff_totals = (0, 1) := by
  have h := get_diff_multiset_count_delta scenC (by decide) (by decide)
  refine ⟨?_, ?_, ?_⟩
  · have h1 := (h.1 (chars "a.c:#: warning: unused variable x") 1 (by decide)).1
    rw [h1]
    decide
  · have h2 := (h.2.1 (chars "a.c:#: warning: unused variable y") (by decide)).2
    rw [h2]
    decide
  · rw [h.2.2]
    decide

/-- C5: the normalization applied by `add` (the line-number substitution
run twice) is idempotent; after it no `:<digits>:` field remains, so every
occurrence was replaced by `:#:`; and two warnings that differ only in the
digits of a line-number field normalize to the same key. -/
theorem normalize_idempotent_and_line_number_blind :
    (∀ s : List Char, normalize (normalize s) = normalize s)
    ∧ (∀ s : List Char, hasLineField (normalize s) = false)
    ∧ (∀ pre ds es post : List Char, ds ≠ [] → es ≠ [] →
        (∀ c ∈ ds, c.isDigit = true) → (∀ c ∈ es, c.isDigit = true) →
        normalize (pre ++ ':' :: ds ++ ':' :: post) =
          normalize (pre ++ ':' :: es ++ ':' :: post)) :=
  ⟨normalize_idem, hasLineField_normalize, normalize_line_number_blind⟩

/-- C5 witness: idempotence and line-number blindness at the spec's own
example strings. -/
theorem normalize_idempotent_and_line_number_blind_witness :
    normalize (normalize (chars "foo.c:12: warning: X")) =
      normalize (chars "foo.c:12: warning: X")
    ∧ normalize (chars "foo.c:12: warning: X") =
      normalize (chars "foo.c:99: warning: X") := by
  have h := normalize_idempotent_and_line_number_blind
  refine ⟨h.1 _, ?_⟩
  have h3 := h.2.2 (chars "foo.c") (chars "12") (chars "99")
    (chars " warning: X") (by decide) (by decide) (by decide) (by decide)
  have e1 : chars "foo.c:12: warning: X" =
      chars "foo.c" ++ ':' :: chars "12" ++ ':' :: chars " warning: X" := by
    decide
  have e2 : chars "foo.c:99: warning: X" =
      chars "foo.c" ++ ':' :: chars "99" ++ ':' :: chars " warning: X" := by
    decide
  rw [e1, e2]
  exact h3

theorem except_bind_ok {α β γ : Type} (x : β) (f : β → Except α γ) :
    (Except.ok x : Except α β) >>= f = f x := rfl

theorem except_bind_error {α β γ : Type} (e : α) (f : β → Except α γ) :
    (Except.error e : Except α β) >>= f = Except.error e := rfl

/-- C6, amended: the outcome of a completed build run has status SUCCESS
iff some stdout line contains the success marker, and the child's exit
code has no effect on the returned results dict (it only decides whether
the progress bar is finalized); but because the marker checks form an
if/elif chain, `mustRerun` is set iff some stdout line contains the rerun
marker AND NOT the success marker — a line carrying both markers only
sets the status. -/
theorem make_status_rerun_markers :
    (∀ (out err : List (List Char)) (tr : Option WarningTracker)
        (rc rc' : Int),
      (make out err tr rc).map Prod.fst = (make out err tr rc').map Prod.fst)
    ∧ (∀ (out err : List (List Char)) (tr : Option WarningTracker) (rc : Int)
        (r : MakeResult) (fin : Bool),
        make out err tr rc = .ok (r, fin) →
        (r.status = .pass ↔ ∃ l ∈ out, hasSub SUCCESS_MARKER l = true)
        ∧ (r.rerun = true ↔ ∃ l ∈ out,
            hasSub RERUN_MARKER l = true ∧ hasSub SUCCESS_MARKER l = false)) := by
  constructor
  · intro out err tr rc rc'
    cases ho : List.foldlM stepStdout initOut out with
    | error e0 => simp only [make, ho, except_bind_error]
    | ok o =>
      cases he : List.foldlM stepStderr (initErr tr) err with
      | error e1 => simp only [make, ho, he, except_bind_ok, except_bind_error]
      | ok e1 =>
        simp only [make, ho, he, except_bind_ok]
        rfl
  · intro out err tr rc r fin h
    cases ho : List.foldlM stepStdout initOut out with
    | error e0 =>
      simp only [make, ho, except_bind_error] at h
      exact absurd h (by simp)
    | ok o =>
      cases he : List.foldlM stepStderr (initErr tr) err with
      | error e1 =>
        simp only [make, ho, he, except_bind_ok, except_bind_error] at h
        exact absurd h (by simp)
      | ok e1 =>
        simp only [make, ho, he, except_bind_ok, Except.ok.injEq,
          Prod.mk.injEq] at h
        obtain ⟨hrec, hfin⟩ := h
        subst hrec
        have hst := (runStdout_flags out initOut o ho).1
        have hre := (runStdout_flags out initOut o ho).2
        rw [show initOut.status = BuildStatus.fail from rfl] at hst
        rw [show initOut.rerun = false from rfl] at hre
        simp only [show (BuildStatus.fail = BuildStatus.pass) = False by
          simp, false_or] at hst
        simp only [Bool.false_eq_true, false_or] at hre
        exact ⟨hst, hre⟩

/-- C6 counterexample: a stdout line that contains both the success and
rerun markers sets the status but leaves `rerun` false, refuting
"mustRerun is true iff some stdout line contains the rerun marker". -/
theorem make_rerun_masked_by_success_cex :
    List.foldlM stepStdout initOut
      [chars "Size of flash image 77 Please run make again!"] =
      .ok { status := .pass, rerun := false, size := 77, ticks := 0 }
    ∧ hasSub RERUN_MARKER
        (chars "Size of flash image 77 Please run make again!") = true :=
  ⟨rfl, by decide⟩

/-- C6 witness: exit-code independence and the success iff at the spec's
scenario-A line. -/
theorem make_status_rerun_markers_witness :
    (make [chars "Size of flash image: 9 b"] [] none 0).map Prod.fst
      = (make [chars "Size of flash image: 9 b"] [] none 5).map Prod.fst
    ∧ ({ status := .pass, rerun := false, size := 9, linker_log := [],
         error_log := [], warning_log := [], raw_log := [],
         tracker := none } : MakeResult).status = .pass := by
  have h := make_status_rerun_markers
  refine ⟨h.1 [chars "Size of flash image: 9 b"] [] none 0 5, ?_⟩
  have h2 := h.2 [chars "Size of flash image: 9 b"] [] none 0
    { status := .pass, rerun := false, size := 9, linker_log := [],
      error_log := [], warning_log := [], raw_log := [], tracker := none }
    true rfl
  exact h2.1.mpr ⟨chars "Size of flash image: 9 b", by simp, by decide⟩

/-- C7, amended: unmatched stderr lines are buffered as context and
prefixed onto the next linker or error diagnostic, after which the buffer
resets; a warning diagnostic also consumes the buffer (routing
`context + line` to the census when one is installed) but writes nothing
to the `'warning'` categorized log, whose accumulation is commented out
in the source: the returned `'warning'` log is always empty. -/
theorem categorized_log_context_prefix :
    (∀ (st : ErrLoop) (line : List Char), classifyStderr line = .errorDiag →
      stepStderr st line = .ok
        { st with compiler_log := st.compiler_log ++ line,
                  error_log := st.error_log ++ st.context ++ line,
                  context := [] })
    ∧ (∀ (st : ErrLoop) (line : List Char), classifyStderr line = .linkerDiag →
      stepStderr st line = .ok
        { st with compiler_log := st.compiler_log ++ line,
                  linker_log := st.linker_log ++ st.context ++ line,
                  context := [] })
    ∧ (∀ (st : ErrLoop) (line : List Char), classifyStderr line = .warningDiag →
        st.tracker = none →
      stepStderr st line = .ok
        { st with compiler_log := st.compiler_log ++ line, context := [] })
    ∧ (∀ (st : ErrLoop) (line : List Char), classifyStderr line = .contextLine →
      stepStderr st line = .ok
        { st with compiler_log := st.compiler_log ++ line,
                  context := st.context ++ line })
    ∧ (∀ (lines : List (List Char)) (st1 : ErrLoop),
        List.foldlM stepStderr (initErr none) lines = .ok st1 →
        st1.warning_log = []) := by
  refine ⟨stepStderr_error_line, stepStderr_linker_line, ?_,
    stepStderr_context_line, ?_⟩
  · intro st line h ht
    rw [stepStderr_warning_line st line none h (by rw [ht]; rfl), ht]
  · intro lines st1 h
    rw [runStderr_warning_log_const lines (initErr none) st1 h]
    rfl

/-- C7 counterexample: one warning line on stderr leaves the `'warning'`
categorized log empty in the returned state, so the warning category does
not accumulate its lines as claimed. -/
theorem warning_category_log_empty_cex :
    classifyStderr (chars "a.c:1: warning: x") = .warningDiag
    ∧ List.foldlM stepStderr (initErr none) [chars "a.c:1: warning: x"] = .ok
      { compiler_log := chars "a.c:1: warning: x", linker_log := [],
        error_log := [], warning_log := [], context := [], tracker := none }
    ∧ chars "a.c:1: warning: x" ≠ [] :=
  ⟨by decide, rfl, by decide⟩

/-- C7 witness: scenario D's error line gets the buffered context
prefixed and the buffer cleared. -/
theorem categorized_log_context_prefix_witness :
    stepStderr scenD_st (chars "file.c:4: error: X") = .ok
      { scenD_st with
        compiler_log := scenD_st.compiler_log ++ chars "file.c:4: error: X",
        error_log := scenD_st.error_log ++ scenD_st.context
          ++ chars "file.c:4: error: X",
        context := [] } := by
  have h := categorized_log_context_prefix
  exact h.1 scenD_st (chars "file.c:4: error: X") (by decide)

/-- C8: when the candidate build's outcome is neither SUCCESS nor
requesting rerun, `check_warnings` reports the failure and returns: the
base ref is never checked out and no warning diff is computed. -/
theorem check_warnings_abort_guard (r : MakeResult)
    (h1 : r.status ≠ .pass) (h2 : r.rerun = false) :
    check_warnings r = [.select_new_generation, .build_candidate,
      .restore_generated_files, .report_failure]
    ∧ SessionStep.checkout_base ∉ check_warnings r
    ∧ SessionStep.print_diff ∉ check_warnings r
    ∧ SessionStep.report_failure ∈ check_warnings r := by
  have hc : check_warnings r = [.select_new_generation, .build_candidate,
      .restore_generated_files, .report_failure] := by
    rw [check_warnings, if_pos (by simp [h1, h2])]
    rfl
  refine ⟨hc, ?_, ?_, ?_⟩ <;> rw [hc] <;> decide

/-- C8 witness: the abort trace at a concrete failed outcome. -/
theorem check_warnings_abort_guard_witness :
    check_warnings failedOutcome = [.select_new_generation, .build_candidate,
      .restore_generated_files, .report_failure] :=
  (check_warnings_abort_guard failedOutcome (by decide) rfl).1

/-- C9: `set_db("old")` and `set_db("new")` switch the active mapping so
that subsequent `add` calls increment counts in that generation; every
other argument fails fast with the invalid-name error. -/
theorem set_db_generation_selection :
    (∀ t : WarningTracker,
      t.set_db (chars "old") = .ok { t with active_db := some Gen.old })
    ∧ (∀ t : WarningTracker,
      t.set_db (chars "new") = .ok { t with active_db := some Gen.new })
    ∧ (∀ (t : WarningTracker) (w : List Char),
        WarningTracker.add { t with active_db := some Gen.old } w =
          .ok { t with active_db := some Gen.old,
                       old_db := dbAdd t.old_db (normalize w) })
    ∧ (∀ (t : WarningTracker) (w : List Char),
        WarningTracker.add { t with active_db := some Gen.new } w =
          .ok { t with active_db := some Gen.new,
                       new_db := dbAdd t.new_db (normalize w) })
    ∧ (∀ s : List Char, s ≠ chars "old" → s ≠ chars "new" →
        ∀ t : WarningTracker, t.set_db s = .error (chars "Invalid name")) := by
  refine ⟨?_, ?_, ?_, ?_, ?_⟩
  · intro t
    rw [WarningTracker.set_db, if_pos rfl]
  · intro t
    rw [WarningTracker.set_db, if_neg (by decide), if_pos rfl]
  · intro t w
    rfl
  · intro t w
    rfl
  · intro s hs1 hs2 t
    rw [WarningTracker.set_db, if_neg hs1, if_neg hs2]

/-- C9 witness: selection and the invalid-name error at concrete inputs. -/
theorem set_db_generation_selection_witness :
    WarningTracker.init.set_db (chars "old") =
      .ok { WarningTracker.init with active_db := some Gen.old }
    ∧ WarningTracker.init.set_db (chars "wat") =
      .error (chars "Invalid name") := by
  have h := set_db_generation_selection
  exact ⟨h.1 WarningTracker.init,
    h.2.2.2.2 (chars "wat") (by decide) (by decide) WarningTracker.init⟩

/-- C10, amended: `add` is total on every census state in which a
generation has been selected; but on a freshly constructed census, where
no generation was ever selected, `add` dereferences the `None` active
mapping and raises, so record is not total over all reachable states. -/
theorem add_total_when_generation_selected :
    (∀ (t : WarningTracker) (g : Gen) (w : List Char), t.active_db = some g →
      ∃ t2, t.add w = .ok t2)
    ∧ (∀ w : List Char, WarningTracker.init.add w = .error ()) := by
  constructor
  · intro t g w h
    cases g with
    | old => exact ⟨_, by rw [WarningTracker.add, h]⟩
    | new => exact ⟨_, by rw [WarningTracker.add, h]⟩
  · intro w
    rfl

/-- C10 counterexample: on a freshly constructed tracker (a reachable
state) `add` raises instead of completing. -/
theorem add_on_fresh_tracker_cex :
    WarningTracker.init.add (chars "a.c:1: warning: x") = .error () := rfl

/-- C10 witness: totality of `add` on a state with a selected generation. -/
theorem add_total_when_generation_selected_witness :
    ∃ t2, WarningTracker.add
      { old_db := [], new_db := [], active_db := some Gen.old }
      (chars "a.c:1: warning: x") = .ok t2 := by
  have h := add_total_when_generation_selected
  exact h.1 { old_db := [], new_db := [], active_db := some Gen.old }
    Gen.old (chars "a.c:1: warning: x") rfl

end Devtools
